import Mathlib

/-!
# The x64 back end of the HoleyC compiler (`x64_codegen.cpp`)

A shallow embedding of the lowering from three-address code to x64 assembly text.

* An output stream `std::ostream& out` is the text written so far: a C++ member
  `void f(std::ostream& out, ...)` becomes a function taking the text before the call and
  giving the text after it; `out << s` is `out ++ s`.
* A C++ `throw` is the `thrown` case of `Outcome`, which keeps the state reached when the
  exception left the function.
* Operand objects are mutable and shared through pointers.  Every `SymOpd`/`AuxOpd` carries
  the address of its object, and the `myLoc` members live in a store `Locs` indexed by
  that address, which `setMemoryLoc` updates and `getMemoryLoc` reads.
* `int` and `size_t` values are integers of `Int`/`Nat`; the frame computations stay far
  inside the range of `int` (signed overflow is undefined in C++).  The 64-bit registers of
  the small machine model at the end wrap explicitly.
* `std::string` is `String`; the texts are ASCII.
* `3ac.hpp` is not among the sources.  What the code uses of it (the operand accessors
  `getName`, `getWidth`, `valString`, the literal's `getMemoryLoc`, `Label::toString`) is a
  field of the object concerned, so the statements hold whatever those accessors return;
  the examples fix them where they need a concrete operand.
-/

namespace holeyc

/-! ## Data model -/

/-- Result of running code that may throw: it returns normally in state `s`, or an
exception with message `msg` leaves it in state `s`. -/
inductive Outcome (σ : Type) where
  | ok (s : σ)
  | thrown (s : σ) (msg : String)
  deriving DecidableEq, Repr

/-- Sequencing: the rest of a function body runs only when the first part returned. -/
def Outcome.andThen {σ τ : Type} (r : Outcome σ) (lift : σ → τ) (next : σ → Outcome τ) :
    Outcome τ :=
  match r with
  | .ok s => next s
  | .thrown s msg => .thrown (lift s) msg

/-- Operand widths, `OpdWidth`. -/
inductive OpdWidth where
  | ADDR
  | QUADWORD
  | BYTE
  deriving DecidableEq, Repr

/-- Operators of a `BinOpQuad`: the twelve cases of the switch in
`BinOpQuad::codegenX64`. -/
inductive BinOp where
  | ADD | SUB | DIV | MULT | OR | AND | EQ | NEQ | LT | GT | LTE | GTE
  deriving DecidableEq, Repr

/-- Operators of a `UnaryOpQuad`. -/
inductive UnaryOp where
  | NEG | NOT
  deriving DecidableEq, Repr

/-- The two intrinsics of an `IntrinsicQuad`. -/
inductive Intrinsic where
  | OUTPUT | INPUT
  deriving DecidableEq, Repr

/-- A `SymOpd` object: `addr` is the address of the object (its identity), `name` is what
`getName()` returns, `valStr` what `valString()` returns. -/
structure SymOpd where
  addr : Nat
  name : String
  width : OpdWidth
  valStr : String
  deriving DecidableEq, Repr

/-- An `AuxOpd` object (compiler temporary, or the backing operand of a string literal). -/
structure AuxOpd where
  addr : Nat
  name : String
  width : OpdWidth
  valStr : String
  deriving DecidableEq, Repr

/-- A `LitOpd` object: `val` is its member `val`, `memLoc` is what its `getMemoryLoc()`
returns and `valStr` what its `valString()` returns. -/
structure LitOpd where
  val : String
  width : OpdWidth
  memLoc : String
  valStr : String
  deriving DecidableEq, Repr

/-- An operand `Opd*`: one of the three operand classes. -/
inductive Opd where
  | sym (o : SymOpd)
  | aux (o : AuxOpd)
  | lit (o : LitOpd)
  deriving DecidableEq, Repr

/-- The `myLoc` member of every `SymOpd`/`AuxOpd` object, by object address. -/
abbrev Locs := Nat → String

/-- The call `o->setMemoryLoc(loc)` on the object at `addr`. -/
def setMemoryLoc (locs : Locs) (addr : Nat) (loc : String) : Locs :=
  fun a => if a = addr then loc else locs a

/-- The call `o->getMemoryLoc()`. -/
def Opd.getMemoryLoc (locs : Locs) : Opd → String
  | .sym o => locs o.addr
  | .aux o => locs o.addr
  | .lit o => o.memLoc

/-- The call `o->getWidth()`. -/
def Opd.getWidth : Opd → OpdWidth
  | .sym o => o.width
  | .aux o => o.width
  | .lit o => o.width

/-- The call `o->valString()`. -/
def Opd.valString : Opd → String
  | .sym o => o.valStr
  | .aux o => o.valStr
  | .lit o => o.valStr

/-- The expression `int(s[i])` on a `std::string`: the code of the character at `i`, and
`0` for the terminator at `i = s.length()` (an index beyond that is outside the defined
behaviour of `operator[]` and reads as `0` here). -/
def charCodeAt (s : String) (i : Nat) : Int :=
  ((s.data.getD i (Char.ofNat 0)).toNat : Int)

/-! ## Operand storage protocol -/

/-- The method `SymOpd::genLoad`. -/
def SymOpd.genLoad (locs : Locs) (o : SymOpd) (out regStr : String) : String :=
  out ++ "movq " ++ locs o.addr ++ ", " ++ regStr ++ "\n"

/-- The method `SymOpd::genStore`. -/
def SymOpd.genStore (locs : Locs) (o : SymOpd) (out regStr : String) : Outcome String :=
  .ok (out ++ "movq " ++ regStr ++ ", " ++ locs o.addr ++ "\n")

/-- The method `AuxOpd::genLoad`. -/
def AuxOpd.genLoad (locs : Locs) (o : AuxOpd) (out regStr : String) : String :=
  out ++ "movq " ++ locs o.addr ++ ", " ++ regStr ++ "\n"

/-- The method `AuxOpd::genStore`. -/
def AuxOpd.genStore (locs : Locs) (o : AuxOpd) (out regStr : String) : Outcome String :=
  .ok (out ++ "movq " ++ regStr ++ ", " ++ locs o.addr ++ "\n")

/-- The method `LitOpd::genLoad`. -/
def LitOpd.genLoad (o : LitOpd) (out regStr : String) : String :=
  if o.width = OpdWidth.BYTE then
    if charCodeAt o.val 0 = 48 then
      out ++ "movq $0, " ++ regStr ++ "\n"
    else if charCodeAt o.val 1 = 49 then
      out ++ "movq $1, " ++ regStr ++ "\n"
    else
      out ++ "movq $" ++ toString (charCodeAt o.val 0) ++ ", " ++ regStr ++ "\n"
  else
    out ++ "movq " ++ o.memLoc ++ ", " ++ regStr ++ "\n"

/-- The method `LitOpd::genStore`: it always throws the `InternalError`. -/
def LitOpd.genStore (_o : LitOpd) (out _regStr : String) : Outcome String :=
  .thrown out "Cannot use literal as l-val"

/-- The virtual call `opd->genLoad(out, regStr)`. -/
def Opd.genLoad (locs : Locs) (o : Opd) (out regStr : String) : String :=
  match o with
  | .sym s => s.genLoad locs out regStr
  | .aux a => a.genLoad locs out regStr
  | .lit l => l.genLoad out regStr

/-- The virtual call `opd->genStore(out, regStr)`. -/
def Opd.genStore (locs : Locs) (o : Opd) (out regStr : String) : Outcome String :=
  match o with
  | .sym s => s.genStore locs out regStr
  | .aux a => a.genStore locs out regStr
  | .lit l => l.genStore out regStr

/-! ## Instruction lowering -/

/-- A `BinOpQuad`. -/
structure BinOpQuad where
  dst : Opd
  op : BinOp
  src1 : Opd
  src2 : Opd
  deriving DecidableEq, Repr

/-- The method `BinOpQuad::codegenX64`. -/
def BinOpQuad.codegenX64 (locs : Locs) (q : BinOpQuad) (out : String) : Outcome String :=
  let out := q.src1.genLoad locs out "%rax"
  let out := q.src2.genLoad locs out "%rbx"
  match q.op with
  | .ADD => q.dst.genStore locs (out ++ "addq %rbx, %rax\n") "%rax"
  | .SUB => q.dst.genStore locs (out ++ "subq %rbx, %rax\n") "%rax"
  | .DIV => q.dst.genStore locs (out ++ "movq $0, %rdx\n" ++ "idivq %rbx\n") "%rax"
  | .MULT => q.dst.genStore locs (out ++ "imulq %rbx\n") "%rax"
  | .OR => q.dst.genStore locs (out ++ "orq %rbx, %rax\n") "%rax"
  | .AND => q.dst.genStore locs (out ++ "andq %rbx, %rax\n") "%rax"
  | .EQ => .ok (out ++ "cmpq %rbx, %rax\n" ++ "sete %al\n"
      ++ "movb %al, " ++ q.dst.getMemoryLoc locs ++ "\n")
  | .NEQ => .ok (out ++ "cmpq %rbx, %rax\n" ++ "setne %al\n"
      ++ "movb %al, " ++ q.dst.getMemoryLoc locs ++ "\n")
  | .LT => .ok (out ++ "cmpq %rbx, %rax\n" ++ "setl %al\n"
      ++ "movb %al, " ++ q.dst.getMemoryLoc locs ++ "\n")
  | .GT => .ok (out ++ "cmpq %rbx, %rax\n" ++ "setg %al\n"
      ++ "movb %al, " ++ q.dst.getMemoryLoc locs ++ "\n")
  | .LTE => .ok (out ++ "cmpq %rbx, %rax\n" ++ "setle %al\n"
      ++ "movb %al, " ++ q.dst.getMemoryLoc locs ++ "\n")
  | .GTE => .ok (out ++ "cmpq %rbx, %rax\n" ++ "setge %al\n"
      ++ "movb %al, " ++ q.dst.getMemoryLoc locs ++ "\n")

/-- A `UnaryOpQuad`. -/
structure UnaryOpQuad where
  dst : Opd
  op : UnaryOp
  src : Opd
  deriving DecidableEq, Repr

/-- The method `UnaryOpQuad::codegenX64`. -/
def UnaryOpQuad.codegenX64 (locs : Locs) (q : UnaryOpQuad) (out : String) : Outcome String :=
  let out := q.src.genLoad locs out "%rax"
  match q.op with
  | .NEG => q.dst.genStore locs (out ++ "negq %rax\n") "%rax"
  | .NOT => q.dst.genStore locs (out ++ "movq $1, %rbx\n" ++ "xorq %rbx, %rax\n") "%rax"

/-- An `AssignQuad`. -/
structure AssignQuad where
  dst : Opd
  src : Opd
  deriving DecidableEq, Repr

/-- The method `AssignQuad::codegenX64`. -/
def AssignQuad.codegenX64 (locs : Locs) (q : AssignQuad) (out : String) : Outcome String :=
  let out := q.src.genLoad locs out "%rax"
  q.dst.genStore locs out "%rax"

/-- The method `LocQuad::codegenX64`: it emits nothing. -/
def LocQuad.codegenX64 (out : String) : Outcome String :=
  .ok out

/-- A `JmpQuad`; `tgt` is the text `tgt->toString()`. -/
structure JmpQuad where
  tgt : String
  deriving DecidableEq, Repr

/-- The method `JmpQuad::codegenX64`. -/
def JmpQuad.codegenX64 (q : JmpQuad) (out : String) : Outcome String :=
  .ok (out ++ "jmp " ++ q.tgt ++ "\n")

/-- A `JmpIfQuad`; `tgt` is the text `tgt->toString()`. -/
structure JmpIfQuad where
  cnd : Opd
  tgt : String
  deriving DecidableEq, Repr

/-- The method `JmpIfQuad::codegenX64`. -/
def JmpIfQuad.codegenX64 (locs : Locs) (q : JmpIfQuad) (out : String) : Outcome String :=
  let out := q.cnd.genLoad locs out "%rax"
  .ok (out ++ "cmpq $0, %rax\n" ++ "je " ++ q.tgt ++ "\n")

/-- The method `NopQuad::codegenX64`. -/
def NopQuad.codegenX64 (out : String) : Outcome String :=
  .ok (out ++ "nop\n")

/-- An `IntrinsicQuad`. -/
structure IntrinsicQuad where
  myIntrinsic : Intrinsic
  myArg : Opd
  deriving DecidableEq, Repr

/-- The method `IntrinsicQuad::codegenX64`. -/
def IntrinsicQuad.codegenX64 (locs : Locs) (q : IntrinsicQuad) (out : String) :
    Outcome String :=
  match q.myIntrinsic with
  | .OUTPUT =>
    let out :=
      if q.myArg.getWidth = OpdWidth.ADDR then
        out ++ "movq $" ++ q.myArg.getMemoryLoc locs ++ ", %rdi\n"
      else
        q.myArg.genLoad locs out "%rdi"
    if q.myArg.getWidth = OpdWidth.QUADWORD then
      .ok (out ++ "callq printInt\n")
    else if q.myArg.getWidth = OpdWidth.BYTE then
      .ok (out ++ "callq printByte\n")
    else
      .ok (out ++ "callq printString\n")
  | .INPUT =>
    let out :=
      if q.myArg.getWidth = OpdWidth.QUADWORD then
        out ++ "callq getInt\n"
      else if q.myArg.getWidth = OpdWidth.BYTE then
        if q.myArg.valString.length > 1 then
          out ++ "callq getBool\n"
        else
          out ++ "callq getChar\n"
      else
        out ++ "callq getChar\n"
    q.myArg.genStore locs out "%rax"

/-- A `CallQuad`; `callee` is the text `callee->getName()`. -/
structure CallQuad where
  callee : String
  deriving DecidableEq, Repr

/-- The method `CallQuad::codegenX64`. -/
def CallQuad.codegenX64 (q : CallQuad) (out : String) : Outcome String :=
  .ok (out ++ "callq " ++ ("lbl_fun_" ++ q.callee) ++ "\n")

/-- A `SetArgQuad`. -/
structure SetArgQuad where
  index : Nat
  opd : Opd
  deriving DecidableEq, Repr

/-- The method `SetArgQuad::codegenX64`. -/
def SetArgQuad.codegenX64 (locs : Locs) (q : SetArgQuad) (out : String) : Outcome String :=
  if q.index = 1 then
    .ok (q.opd.genLoad locs out "%rdi")
  else if q.index = 2 then
    .ok (q.opd.genLoad locs out "%rsi")
  else if q.index = 3 then
    .ok (q.opd.genLoad locs out "%rdx")
  else if q.index = 4 then
    .ok (q.opd.genLoad locs out "%rcx")
  else if q.index = 5 then
    .ok (q.opd.genLoad locs out "%r8")
  else if q.index = 6 then
    .ok (q.opd.genLoad locs out "%r9")
  else
    .ok (q.opd.genLoad locs (out ++ "subq $8, %rsp\n") (q.opd.getMemoryLoc locs))

/-- A `GetArgQuad`. -/
structure GetArgQuad where
  index : Nat
  opd : Opd
  deriving DecidableEq, Repr

/-- The method `GetArgQuad::codegenX64`. -/
def GetArgQuad.codegenX64 (locs : Locs) (q : GetArgQuad) (out : String) : Outcome String :=
  if q.index = 1 then
    q.opd.genStore locs out "%rdi"
  else if q.index = 2 then
    q.opd.genStore locs out "%rsi"
  else if q.index = 3 then
    q.opd.genStore locs out "%rdx"
  else if q.index = 4 then
    q.opd.genStore locs out "%rcx"
  else if q.index = 5 then
    q.opd.genStore locs out "%r8"
  else if q.index = 6 then
    q.opd.genStore locs out "%r9"
  else
    .ok out

/-- A `SetRetQuad`. -/
structure SetRetQuad where
  opd : Opd
  deriving DecidableEq, Repr

/-- The method `SetRetQuad::codegenX64`; `tmp[1]` is the first character of
`valString()`, or the terminator when that text is empty. -/
def SetRetQuad.codegenX64 (locs : Locs) (q : SetRetQuad) (out : String) : Outcome String :=
  let tmp := "$" ++ q.opd.valString
  let tmp := if charCodeAt tmp 1 = 91 then q.opd.getMemoryLoc locs else tmp
  .ok (out ++ "movq " ++ tmp ++ ", %rax\n")

/-- A `GetRetQuad`. -/
structure GetRetQuad where
  opd : Opd
  deriving DecidableEq, Repr

/-- The method `GetRetQuad::codegenX64`. -/
def GetRetQuad.codegenX64 (locs : Locs) (q : GetRetQuad) (out : String) : Outcome String :=
  q.opd.genStore locs out "%rax"

/-- The instruction classes that occur in a procedure body.  The `EnterQuad` and the
`LeaveQuad` of a procedure are its members `enter` and `leave`, see `Procedure`. -/
inductive QuadKind where
  | binOp (q : BinOpQuad)
  | unaryOp (q : UnaryOpQuad)
  | assign (q : AssignQuad)
  | loc
  | jmp (q : JmpQuad)
  | jmpIf (q : JmpIfQuad)
  | nop
  | intrinsic (q : IntrinsicQuad)
  | call (q : CallQuad)
  | setArg (q : SetArgQuad)
  | getArg (q : GetArgQuad)
  | setRet (q : SetRetQuad)
  | getRet (q : GetRetQuad)
  deriving DecidableEq, Repr

/-- A `Quad`: its attached labels (each the text `label->toString()`) and its class. -/
structure Quad where
  labels : List String
  kind : QuadKind
  deriving DecidableEq, Repr

/-- The virtual call `quad->codegenX64(out)`. -/
def Quad.codegenX64 (locs : Locs) (q : Quad) (out : String) : Outcome String :=
  match q.kind with
  | .binOp b => b.codegenX64 locs out
  | .unaryOp u => u.codegenX64 locs out
  | .assign a => a.codegenX64 locs out
  | .loc => LocQuad.codegenX64 out
  | .jmp j => j.codegenX64 out
  | .jmpIf j => j.codegenX64 locs out
  | .nop => NopQuad.codegenX64 out
  | .intrinsic i => i.codegenX64 locs out
  | .call c => c.codegenX64 out
  | .setArg s => s.codegenX64 locs out
  | .getArg g => g.codegenX64 locs out
  | .setRet s => s.codegenX64 locs out
  | .getRet g => g.codegenX64 locs out

/-- The loop of `Quad::codegenLabels` from label number `labelIdx` on. -/
def codegenLabelsLoop (numLabels : Nat) : List String → Nat → String → String
  | [], _, out => out
  | label :: rest, labelIdx, out =>
    let out := out ++ label ++ ": "
    let out := if labelIdx ≠ numLabels - 1 then out ++ "\n" else out
    codegenLabelsLoop numLabels rest (labelIdx + 1) out

/-- The method `Quad::codegenLabels`, on the list `labels` of the quad. -/
def codegenLabels (labels : List String) (out : String) : String :=
  if labels.isEmpty then out
  else codegenLabelsLoop labels.length labels 0 out

/-! ## Procedures -/

/-- A `Procedure`.  `enterLabels` and `leaveLabels` are the labels of its `enter` and
`leave` quads. -/
structure Procedure where
  myName : String
  locals : List SymOpd
  temps : List AuxOpd
  formals : List SymOpd
  enterLabels : List String
  bodyQuads : List Quad
  leaveLabels : List String
  deriving DecidableEq, Repr

/-- Modelled from the spec: `Procedure::localsSize` is defined outside `x64_codegen.cpp`;
the total frame size is 8 bytes times the number of locals, temporaries and formals. -/
def Procedure.localsSize (p : Procedure) : Nat :=
  8 * (p.locals.length + p.temps.length + p.formals.length)

/-- One of the three loops of `Procedure::allocLocals`, over the addresses of the operand
objects it visits: it returns the running `offset` and the updated locations. -/
def allocFrameSlots : List Nat → Int → Locs → Int × Locs
  | [], offset, locs => (offset, locs)
  | a :: rest, offset, locs =>
    allocFrameSlots rest (offset - 8) (setMemoryLoc locs a (toString offset ++ "(%rbp)"))

/-- The method `Procedure::allocLocals`. -/
def Procedure.allocLocals (p : Procedure) (locs : Locs) : Locs :=
  let offset : Int := -24
  let r1 := allocFrameSlots (p.locals.map SymOpd.addr) offset locs
  let r2 := allocFrameSlots (p.temps.map AuxOpd.addr) r1.1 r1.2
  let r3 := allocFrameSlots (p.formals.map SymOpd.addr) r2.1 r2.2
  r3.2

/-- The value of `size` that `EnterQuad::codegenX64` prints. -/
def EnterQuad.size (myProc : Procedure) : Int :=
  let size : Int := myProc.localsSize
  size + Int.tmod size 16

/-- The method `EnterQuad::codegenX64`. -/
def EnterQuad.codegenX64 (myProc : Procedure) (out : String) : String :=
  out ++ "pushq %rbp\n" ++ "movq %rsp, %rbp\n" ++ "addq $16, %rbp\n"
    ++ "subq $" ++ toString (EnterQuad.size myProc) ++ ", %rsp\n"

/-- The value of `size` that `LeaveQuad::codegenX64` prints. -/
def LeaveQuad.size (myProc : Procedure) : Int :=
  let size : Int := myProc.localsSize
  size + Int.tmod size 16

/-- The method `LeaveQuad::codegenX64`. -/
def LeaveQuad.codegenX64 (myProc : Procedure) (out : String) : String :=
  out ++ "addq $" ++ toString (LeaveQuad.size myProc) ++ ", %rsp\n"
    ++ "popq %rbp\n" ++ "retq\n"

/-- The loop over `bodyQuads` in `Procedure::toX64`. -/
def codegenBody (locs : Locs) : List Quad → String → Outcome String
  | [], out => .ok out
  | quad :: rest, out =>
    (quad.codegenX64 locs (codegenLabels quad.labels out)).andThen id (codegenBody locs rest)

/-- The method `Procedure::toX64`: it returns the locations after `allocLocals` and the
output. -/
def Procedure.toX64 (p : Procedure) (locs : Locs) (out : String) : Outcome (Locs × String) :=
  let locs := p.allocLocals locs
  let out :=
    if p.myName = "main" then out ++ "main:\n"
    else codegenLabels p.enterLabels out ++ "\n"
  let out := EnterQuad.codegenX64 p out
  (codegenBody locs p.bodyQuads out).andThen (fun o => (locs, o)) fun out =>
    let out := codegenLabels p.leaveLabels out
    .ok (locs, LeaveQuad.codegenX64 p out)

/-! ## Programs -/

/-- An `IRProgram`.  Modelled from the spec: the members and the accessors `getGlobals`,
`getStrings`, `getAuxForStrings` and `getProcs` are declared outside `x64_codegen.cpp`;
a program owns an ordered set of global operands, an ordered set of (backing operand,
string-literal text) pairs and an ordered list of procedures. -/
structure IRProgram where
  globals : List SymOpd
  strings : List (AuxOpd × String)
  procs : List Procedure
  deriving DecidableEq, Repr

/-- The accessor `IRProgram::getGlobals`. -/
def IRProgram.getGlobals (prog : IRProgram) : List SymOpd :=
  prog.globals

/-- The accessor `IRProgram::getAuxForStrings`. -/
def IRProgram.getAuxForStrings (prog : IRProgram) : List AuxOpd :=
  prog.strings.map Prod.fst

/-- The accessor `IRProgram::getStrings`. -/
def IRProgram.getStrings (prog : IRProgram) : List String :=
  prog.strings.map Prod.snd

/-- The accessor `IRProgram::getProcs`. -/
def IRProgram.getProcs (prog : IRProgram) : List Procedure :=
  prog.procs

/-- The C library `isspace` in the "C" locale: space, and `\t \n \v \f \r`. -/
def isspace (c : Char) : Bool :=
  c.toNat = 32 || (9 ≤ c.toNat && c.toNat ≤ 13)

/-- The C library `ispunct` in the "C" locale: the printable ASCII characters that are
neither a space nor alphanumeric. -/
def ispunct (c : Char) : Bool :=
  (33 ≤ c.toNat && c.toNat ≤ 47) || (58 ≤ c.toNat && c.toNat ≤ 64)
    || (91 ≤ c.toNat && c.toNat ≤ 96) || (123 ≤ c.toNat && c.toNat ≤ 126)

/-- The statement `s.erase(std::remove_if(s.begin(), s.end(), pred), s.end())`: the
characters that satisfy `pred` are deleted, the others keep their order. -/
def eraseIf (pred : Char → Bool) (s : String) : String :=
  ⟨s.data.filter fun c => !pred c⟩

/-- The call `s.substr(pos, n)`: `none` stands for the `std::out_of_range` it throws when
`pos > s.size()`. -/
def substr (s : String) (pos n : Nat) : Option String :=
  if pos > s.length then none else some ⟨(s.data.drop pos).take n⟩

/-- The label computed for one string literal in the second loop of
`IRProgram::allocGlobals` (the value of `tmp`); `length() - 2` is `size_t` arithmetic. -/
def stringLabel (text : String) : Option String :=
  match substr text 1 ((text.length + (2 ^ 64 - 2)) % 2 ^ 64) with
  | none => none
  | some inner => some (eraseIf ispunct (eraseIf isspace ("str_" ++ inner)))

/-- The first loop of `IRProgram::allocGlobals`. -/
def allocGlobalsLoop : List SymOpd → Locs → Locs
  | [], locs => locs
  | global :: rest, locs =>
    allocGlobalsLoop rest (setMemoryLoc locs global.addr ("gbl_" ++ global.name))

/-- The second loop of `IRProgram::allocGlobals`, from the iterator position whose index
is `itr`; `strings[itr]` is read from the whole vector `strings`. -/
def allocStringsLoop (strings : List String) : List AuxOpd → Nat → Locs → Outcome Locs
  | [], _, locs => .ok locs
  | aux :: rest, itr, locs =>
    match stringLabel (strings.getD itr "") with
    | none => .thrown locs "std::out_of_range"
    | some tmp => allocStringsLoop strings rest (itr + 1) (setMemoryLoc locs aux.addr tmp)

/-- The method `IRProgram::allocGlobals`. -/
def IRProgram.allocGlobals (prog : IRProgram) (locs : Locs) : Outcome Locs :=
  let globals := prog.getGlobals
  let locs := allocGlobalsLoop globals locs
  let stringAuxs := prog.getAuxForStrings
  let strings := prog.getStrings
  allocStringsLoop strings stringAuxs 0 locs

/-- The loop over the globals in `IRProgram::datagenX64`. -/
def datagenGlobals (locs : Locs) : List SymOpd → String → String
  | [], out => out
  | global :: rest, out =>
    datagenGlobals locs rest (out ++ locs global.addr ++ ":\n" ++ "   .quad 0\n")

/-- The loop over the string operands in `IRProgram::datagenX64`. -/
def datagenStrings (locs : Locs) (strs : List String) : List AuxOpd → Nat → String → String
  | [], _, out => out
  | str :: rest, itr, out =>
    datagenStrings locs strs rest (itr + 1)
      (out ++ locs str.addr ++ ":\n" ++ ".asciz " ++ strs.getD itr "" ++ "\n")

/-- The method `IRProgram::datagenX64`. -/
def IRProgram.datagenX64 (prog : IRProgram) (locs : Locs) (out : String) :
    Outcome (Locs × String) :=
  (prog.allocGlobals locs).andThen (fun l => (l, out)) fun locs =>
    let out := out ++ ".data\n"
    let out := datagenGlobals locs prog.getGlobals out
    let out := datagenStrings locs prog.getStrings prog.getAuxForStrings 0 out
    .ok (locs, out ++ ".align 8\n\n")

/-- The loop over the procedures in `IRProgram::toX64`. -/
def procsToX64 : List Procedure → Locs → String → Outcome (Locs × String)
  | [], locs, out => .ok (locs, out)
  | proc :: rest, locs, out =>
    (proc.toX64 locs out).andThen id fun st => procsToX64 rest st.1 st.2

/-- The method `IRProgram::toX64`. -/
def IRProgram.toX64 (prog : IRProgram) (locs : Locs) (out : String) :
    Outcome (Locs × String) :=
  (prog.datagenX64 locs out).andThen id fun st =>
    procsToX64 prog.getProcs st.1 (st.2 ++ ".text\n" ++ ".globl main\n")

/-! ## Definitions used to state the properties -/

/-- The operand objects of a procedure's frame in allocation order: locals, then
temporaries, then formals (by object address). -/
def Procedure.frameOpds (p : Procedure) : List Nat :=
  p.locals.map SymOpd.addr ++ p.temps.map AuxOpd.addr ++ p.formals.map SymOpd.addr

/-- The frame offset stated for the `k`-th operand of the frame: `-24 - 8k`. -/
def frameOffset (k : Nat) : Int :=
  -24 - 8 * (k : Int)

/-- The number a list of decimal digit characters denotes. -/
def decValue (cs : List Char) : Nat :=
  cs.foldl (fun acc c => 10 * acc + (c.toNat - 48)) 0

/-- The state in which an outcome leaves the computation, thrown or not. -/
def Outcome.state {σ : Type} : Outcome σ → σ
  | .ok s => s
  | .thrown s _ => s

/-- Locations used in the examples: the operand objects at addresses 1 and 2 have the
frame slots `-24(%rbp)` and `-32(%rbp)`. -/
def exampleLocs : Locs :=
  fun a => if a = 1 then "-24(%rbp)" else if a = 2 then "-32(%rbp)" else ""

/-- A quadword variable `a`, the operand object at address 1. -/
def exampleA : SymOpd :=
  { addr := 1, name := "a", width := .QUADWORD, valStr := "[a]" }

/-- A quadword variable `b`, the operand object at address 2. -/
def exampleB : SymOpd :=
  { addr := 2, name := "b", width := .QUADWORD, valStr := "[b]" }

/-- The byte literal `0`, whose `getMemoryLoc()` is taken to be the immediate `$0`. -/
def exampleLit : LitOpd :=
  { val := "0", width := .BYTE, memLoc := "$0", valStr := "0" }

/-- A procedure with one local, one temporary and one formal, the operand objects at
addresses 1, 2 and 3. -/
def exampleProc : Procedure :=
  { myName := "f", locals := [exampleA],
    temps := [{ addr := 2, name := "tmp0", width := .QUADWORD, valStr := "[tmp0]" }],
    formals := [{ addr := 3, name := "p", width := .QUADWORD, valStr := "[p]" }],
    enterLabels := ["lbl_fun_f"], bodyQuads := [], leaveLabels := ["lbl_0"] }

/-- The register the spec's calling convention fixes for argument `i` (1 to 6). -/
def argRegister (i : Nat) : String :=
  if i = 1 then "%rdi" else if i = 2 then "%rsi" else if i = 3 then "%rdx"
  else if i = 4 then "%rcx" else if i = 5 then "%r8" else "%r9"

/-- An operand is storage-backed when it is not a literal. -/
def Opd.isStorageBacked : Opd → Bool
  | .sym _ => true
  | .aux _ => true
  | .lit _ => false

/-- A list of `setMemoryLoc` calls, in order: the object at the first component gets the
location in the second. -/
def assignAll : List (Nat × String) → Locs → Locs
  | [], locs => locs
  | p :: rest, locs => assignAll rest (setMemoryLoc locs p.1 p.2)

/-- The text of a string literal without its first and last character (the quotation
marks) and without its whitespace and punctuation characters, the others in order. -/
def strippedText (text : String) : String :=
  ⟨((text.data.drop 1).dropLast).filter fun c => !isspace c && !ispunct c⟩

/-- The label stated for a string literal: `str` followed by its stripped text. -/
def strippedLabel (text : String) : String :=
  "str" ++ strippedText text

/-- The label stated for a global: `gbl_` followed by its name. -/
def globalLabel (name : String) : String :=
  "gbl_" ++ name

/-- The addresses of the operand objects `IRProgram::allocGlobals` visits: the globals,
then the backing operands of the string literals. -/
def IRProgram.staticOpds (prog : IRProgram) : List Nat :=
  prog.globals.map SymOpd.addr ++ prog.strings.map fun p => p.1.addr

/-- A program with the two string literals `"ab"` and `"a b"`, backed by the operand
objects at addresses 1 and 2. -/
def twoStringsProgram : IRProgram :=
  { globals := [],
    strings :=
      [({ addr := 1, name := "str0", width := .ADDR, valStr := "[str0]" }, "\"ab\""),
       ({ addr := 2, name := "str1", width := .ADDR, valStr := "[str1]" }, "\"a b\"")],
    procs := [] }

/-- A program with the two string literals `"ab"` and `"cd"` and the globals `a`, `b`. -/
def exampleProgram : IRProgram :=
  { globals := [exampleA, exampleB],
    strings :=
      [({ addr := 3, name := "str0", width := .ADDR, valStr := "[str0]" }, "\"ab\""),
       ({ addr := 4, name := "str1", width := .ADDR, valStr := "[str1]" }, "\"cd\"")],
    procs := [] }

/-! ## The stack registers under the emitted instructions -/

/-- The registers `%rsp` and `%rbp`, as addresses. -/
structure StackRegs where
  rsp : Int
  rbp : Int
  deriving DecidableEq, Repr

/-- The emitted x64 instructions that move `%rsp` or `%rbp` on the way into a call. -/
inductive StackInsn where
  | subqRsp (n : Int)
  | callq (target : String)
  | pushqRbp
  | movqRspRbp
  | addqRbp (n : Int)
  deriving DecidableEq, Repr

/-- The assembly text of a stack instruction, as the lowering writes it. -/
def StackInsn.text : StackInsn → String
  | .subqRsp n => "subq $" ++ toString n ++ ", %rsp\n"
  | .callq target => "callq " ++ target ++ "\n"
  | .pushqRbp => "pushq %rbp\n"
  | .movqRspRbp => "movq %rsp, %rbp\n"
  | .addqRbp n => "addq $" ++ toString n ++ ", %rbp\n"

/-- The effect of a stack instruction: `subq` lowers `%rsp`; `callq` pushes the 8-byte
return address; `pushq` pushes 8 bytes; `movq %rsp, %rbp` copies; `addq` raises `%rbp`. -/
def StackInsn.exec : StackInsn → StackRegs → StackRegs
  | .subqRsp n, m => { m with rsp := m.rsp - n }
  | .callq _, m => { m with rsp := m.rsp - 8 }
  | .pushqRbp, m => { m with rsp := m.rsp - 8 }
  | .movqRspRbp, m => { m with rbp := m.rsp }
  | .addqRbp n, m => { m with rbp := m.rbp + n }

/-- Running a sequence of stack instructions. -/
def execAll (insns : List StackInsn) (m : StackRegs) : StackRegs :=
  insns.foldl (fun m i => i.exec m) m

/-- The stack instructions of the caller that passes arguments 7 to `i`: one
`subq $8, %rsp` for each (the line `SetArgQuad::codegenX64` emits first for an index
above 6), in increasing index order. -/
def passStackArgs (i : Nat) : List StackInsn :=
  List.replicate (i - 6) (.subqRsp 8)

/-- The address of the slot the caller reserves for argument `i > 6`: the value of `%rsp`
right after the `subq $8, %rsp` of that argument. -/
def reservedSlot (i : Nat) (start : StackRegs) : Int :=
  (execAll (passStackArgs i) start).rsp

/-- The stack instructions between the caller's state before it passes `m` arguments and
the callee's body: the reservations for arguments 7 to `m`, the call, and the Enter
lowering of the callee. -/
def callSequence (m : Nat) (callee : Procedure) : List StackInsn :=
  passStackArgs m
    ++ [.callq ("lbl_fun_" ++ callee.myName), .pushqRbp, .movqRspRbp, .addqRbp 16,
        .subqRsp (EnterQuad.size callee)]

/-- The `i`-th formal (1-based) of a procedure is operand number
`|locals| + |temporaries| + i - 1` of its frame. -/
def Procedure.formalPos (p : Procedure) (i : Nat) : Nat :=
  p.locals.length + p.temps.length + (i - 1)

/-- A procedure `f` with seven quadword formals (operand objects at addresses 1 to 7) and
no locals or temporaries. -/
def sevenFormals : Procedure :=
  { myName := "f", locals := [], temps := [],
    formals := (List.range 7).map fun j =>
      { addr := j + 1, name := "p", width := .QUADWORD, valStr := "[p]" },
    enterLabels := ["lbl_fun_f"], bodyQuads := [], leaveLabels := ["lbl_0"] }

/-- The global `x` of the end-to-end scenario, the operand object at address 1. -/
def scenarioX : SymOpd :=
  { addr := 1, name := "x", width := .QUADWORD, valStr := "[x]" }

/-- The quadword literal `5` of the end-to-end scenario.  Modelled from the spec:
`LitOpd::getMemoryLoc` is defined outside `x64_codegen.cpp`; the scenario has the literal
read as the immediate 5, so its location is the immediate operand `$5`. -/
def scenarioFive : LitOpd :=
  { val := "5", width := .QUADWORD, memLoc := "$5", valStr := "5" }

/-- The program of the end-to-end scenario: one global `x` and one procedure `main` whose
body is `Assign(x, 5)` followed by `Intrinsic/Output(x)`; the labels of the procedure's
`enter` and `leave` quads are left open. -/
def scenarioProgram (enterLabels leaveLabels : List String) : IRProgram :=
  { globals := [scenarioX],
    strings := [],
    procs :=
      [{ myName := "main", locals := [], temps := [], formals := [],
         enterLabels := enterLabels,
         bodyQuads :=
           [{ labels := [], kind := .assign { dst := .sym scenarioX, src := .lit scenarioFive } },
            { labels := [],
              kind := .intrinsic { myIntrinsic := .OUTPUT, myArg := .sym scenarioX } }],
         leaveLabels := leaveLabels }] }

/-! ## Comparison instructions -/

/-- A 64-bit result, as a signed value: two's complement wrap-around of `x`. -/
def wrap64 (x : Int) : Int :=
  (x + 2 ^ 63) % 2 ^ 64 - 2 ^ 63

/-- The status flags a comparison sets: zero, sign and overflow. -/
structure Flags where
  zf : Bool
  sf : Bool
  of : Bool
  deriving DecidableEq, Repr

/-- The instruction `cmpq src, dst` (here `cmpq %rbx, %rax`): it computes `dst - src` in 64
bits and sets ZF when the result is zero, SF when it is negative and OF when the signed
subtraction overflowed. -/
def cmpq (src dst : Int) : Flags :=
  let r := wrap64 (dst - src)
  { zf := decide (r = 0), sf := decide (r < 0), of := decide (r ≠ dst - src) }

/-- The condition codes of the emitted `set<cc>` instructions. -/
inductive CondCode where
  | e | ne | l | g | le | ge
  deriving DecidableEq, Repr

/-- The text of `set<cc> %al`, as the lowering writes it. -/
def CondCode.text : CondCode → String
  | .e => "sete %al\n"
  | .ne => "setne %al\n"
  | .l => "setl %al\n"
  | .g => "setg %al\n"
  | .le => "setle %al\n"
  | .ge => "setge %al\n"

/-- When a condition code holds for given flags: `e` ZF; `ne` not ZF; `l` SF ≠ OF;
`ge` SF = OF; `le` ZF or SF ≠ OF; `g` not ZF and SF = OF. -/
def CondCode.holds : CondCode → Flags → Bool
  | .e, f => f.zf
  | .ne, f => !f.zf
  | .l, f => f.sf != f.of
  | .ge, f => f.sf == f.of
  | .le, f => f.zf || (f.sf != f.of)
  | .g, f => !f.zf && (f.sf == f.of)

/-- The byte that `set<cc> %al` puts in `%al`, which `movb %al, dst` then writes. -/
def setcc (cc : CondCode) (f : Flags) : Nat :=
  if cc.holds f then 1 else 0

/-- The condition code stated for each relational operator. -/
def compareCode : BinOp → Option CondCode
  | .EQ => some .e
  | .NEQ => some .ne
  | .LT => some .l
  | .GT => some .g
  | .LTE => some .le
  | .GTE => some .ge
  | _ => none

/-- The signed comparison `a <op> b` of a relational operator. -/
def BinOp.compare : BinOp → Int → Int → Bool
  | .EQ, a, b => decide (a = b)
  | .NEQ, a, b => decide (a ≠ b)
  | .LT, a, b => decide (a < b)
  | .GT, a, b => decide (a > b)
  | .LTE, a, b => decide (a ≤ b)
  | .GTE, a, b => decide (a ≥ b)
  | _, _, _ => false

/-! ## Definitions for literal loads, intrinsics and return values -/

/-- The immediate `LitOpd::genLoad` prints for a byte-width literal with member `val`. -/
def byteImmediate (val : String) : Int :=
  if charCodeAt val 0 = 48 then 0
  else if charCodeAt val 1 = 49 then 1
  else charCodeAt val 0

/-- The byte literal whose text is the true encoding `1`. -/
def exampleTrue : LitOpd :=
  { val := "1", width := .BYTE, memLoc := "$1", valStr := "1" }

/-- The byte literal for the character `a`; its `valString()` is its text. -/
def exampleChar : LitOpd :=
  { val := "a", width := .BYTE, memLoc := "$a", valStr := "a" }

/-- The runtime entry point stated for Intrinsic/Output, by width. -/
def outputTarget : OpdWidth → String
  | .QUADWORD => "printInt"
  | .BYTE => "printByte"
  | .ADDR => "printString"

/-- The runtime entry point stated for Intrinsic/Input, by width and by the argument's
printed text: `getInt` for quadword, `getBool` for a byte whose text is longer than one
character, `getChar` otherwise. -/
def inputTarget (w : OpdWidth) (printed : String) : String :=
  if w = .QUADWORD then "getInt"
  else if w = .BYTE ∧ printed.length > 1 then "getBool"
  else "getChar"

/-- The concatenation of a list of texts, in list order. -/
def concatAll : List String → String
  | [] => ""
  | s :: rest => s ++ concatAll rest

/-! ## Definitions for the emitted text of a procedure -/

/-- An outcome of a lowering started on the empty stream, replayed after the text `out`. -/
def Outcome.prepend (out : String) : Outcome String → Outcome String
  | .ok t => .ok (out ++ t)
  | .thrown t msg => .thrown (out ++ t) msg

/-- Whether a computation returned normally. -/
def Outcome.isOk {σ : Type} : Outcome σ → Bool
  | .ok _ => true
  | .thrown _ _ => false

/-- The text `opd->genLoad(out, regStr)` adds to the stream. -/
def Opd.loadText (locs : Locs) (o : Opd) (regStr : String) : String :=
  o.genLoad locs "" regStr

/-- What `opd->genStore(out, regStr)` does on the empty stream. -/
def Opd.storeOutcome (locs : Locs) (o : Opd) (regStr : String) : Outcome String :=
  o.genStore locs "" regStr

/-- The text the lowering of one instruction adds to the stream: its own code. -/
def Quad.text (locs : Locs) (q : Quad) : String :=
  (q.codegenX64 locs "").state

/-- The text `Quad::codegenLabels` adds to the stream for the labels of an instruction. -/
def labelsText (labels : List String) : String :=
  codegenLabels labels ""

/-- The text stated for the labels attached to one instruction: each label followed by a
colon and a blank, with a newline between two labels and none after the last. -/
def labelLines : List String → String
  | [] => ""
  | [label] => label ++ ": "
  | label :: next :: rest => label ++ ": " ++ "\n" ++ labelLines (next :: rest)

/-- The entry label of a procedure: the line `main:` for the procedure named `main`,
otherwise the labels of its Enter instruction followed by a newline. -/
def Procedure.entryText (p : Procedure) : String :=
  if p.myName = "main" then "main:\n" else labelsText p.enterLabels ++ "\n"

/-- The body of a procedure as text: for each instruction in list order, its labels
immediately followed by its own code. -/
def bodyText (locs : Locs) (quads : List Quad) : String :=
  concatAll (quads.map fun q => labelsText q.labels ++ q.text locs)

/-- A procedure `g` whose body is `a := b` under the label `lbl_1`, then `nop`. -/
def exampleBodyProc : Procedure :=
  { myName := "g", locals := [exampleA, exampleB], temps := [], formals := [],
    enterLabels := ["lbl_fun_g"],
    bodyQuads :=
      [{ labels := ["lbl_1"], kind := .assign { dst := .sym exampleA, src := .sym exampleB } },
       { labels := [], kind := .nop }],
    leaveLabels := ["lbl_2"] }

/-! ## Division and the frame region -/

/-- The instruction `idivq %rbx`: the signed 128-bit value `%rdx:%rax` (high half `%rdx`,
low half the 64 bits of `%rax`) is divided by `%rbx` and the quotient, truncated toward
zero, is put in `%rax`; `none` is the divide error raised when the divisor is 0 or the
quotient does not fit in 64 bits. -/
def idivq (rdx rax rbx : Int) : Option Int :=
  let dividend := rdx * 2 ^ 64 + rax % 2 ^ 64
  if rbx = 0 then none
  else if -2 ^ 63 ≤ dividend.tdiv rbx ∧ dividend.tdiv rbx < 2 ^ 63 then
    some (dividend.tdiv rbx)
  else none

/-- The stack instructions of the Enter lowering, in the order it writes them. -/
def enterInsns (p : Procedure) : List StackInsn :=
  [.pushqRbp, .movqRspRbp, .addqRbp 16, .subqRsp (EnterQuad.size p)]

/-! ## A machine for the relational lowering -/

/-- The state the relational lowering works on: `%rax` and `%rbx` as signed 64-bit values,
the flags, and memory, where `mem t` is the signed 64-bit content of the 8-byte cell that
the operand text `t` addresses. -/
structure CmpMachine where
  rax : Int
  rbx : Int
  flags : Flags
  mem : String → Int

/-- The value of a decimal immediate, given the characters after the `$`. -/
def immediateValue (ds : List Char) : Int :=
  match ds with
  | [] => 0
  | c :: rest =>
    if c = Char.ofNat 45 then -((decValue rest : Nat) : Int)
    else ((decValue (c :: rest) : Nat) : Int)

/-- The value `movq src, reg` reads: the immediate when `src` starts with `$`, otherwise
the 8-byte cell that `src` addresses. -/
def readSource (m : CmpMachine) (src : String) : Int :=
  match src.data with
  | [] => m.mem src
  | c :: ds => if c = Char.ofNat 36 then immediateValue ds else m.mem src

/-- The instructions of the relational lowering. -/
inductive CmpInsn where
  | movqRax (src : String)
  | movqRbx (src : String)
  | cmpqRbxRax
  | setAl (cc : CondCode)
  | movbAl (dst : String)
  deriving DecidableEq, Repr

/-- The assembly text of an instruction of the relational lowering, as it is written. -/
def CmpInsn.text : CmpInsn → String
  | .movqRax src => "movq " ++ src ++ ", %rax\n"
  | .movqRbx src => "movq " ++ src ++ ", %rbx\n"
  | .cmpqRbxRax => "cmpq %rbx, %rax\n"
  | .setAl cc => cc.text
  | .movbAl dst => "movb %al, " ++ dst ++ "\n"

/-- The effect of an instruction of the relational lowering: `movq` reads 8 bytes (or an
immediate) into the register; `cmpq` sets the flags of `%rax - %rbx`; `set<cc> %al`
replaces the low byte of `%rax` by 0 or 1; `movb %al, dst` replaces the low byte of the
cell `dst` by the low byte of `%rax` and leaves its other seven bytes as they are. -/
def CmpInsn.exec : CmpInsn → CmpMachine → CmpMachine
  | .movqRax src, m => { m with rax := readSource m src }
  | .movqRbx src, m => { m with rbx := readSource m src }
  | .cmpqRbxRax, m => { m with flags := cmpq m.rbx m.rax }
  | .setAl cc, m =>
    { m with rax := wrap64 (m.rax % 2 ^ 64 - m.rax % 256 + (setcc cc m.flags : Nat)) }
  | .movbAl dst, m =>
    { m with mem := fun t =>
        if t = dst then wrap64 (m.mem dst % 2 ^ 64 - m.mem dst % 256 + m.rax % 256)
        else m.mem t }

/-- Running a sequence of instructions of the relational lowering. -/
def runCmp (insns : List CmpInsn) (m : CmpMachine) : CmpMachine :=
  insns.foldl (fun m i => i.exec m) m

/-- The source operand text of the `movq` that `opd->genLoad` writes. -/
def Opd.loadSource (locs : Locs) : Opd → String
  | .sym o => locs o.addr
  | .aux o => locs o.addr
  | .lit o => if o.width = .BYTE then "$" ++ toString (byteImmediate o.val) else o.memLoc

/-- The instructions `BinOpQuad::codegenX64` writes for a relational operator with
condition code `cc`. -/
def relationalInsns (locs : Locs) (q : BinOpQuad) (cc : CondCode) : List CmpInsn :=
  [.movqRax (q.src1.loadSource locs), .movqRbx (q.src2.loadSource locs), .cmpqRbxRax,
   .setAl cc, .movbAl (q.dst.getMemoryLoc locs)]

/-- The value stated for a byte-width literal: 0 for the false encoding `0`, 1 for the
true encoding `1`, the code of the first character for every other text. -/
def statedByteValue (val : String) : Int :=
  if val = "0" then 0 else if val = "1" then 1 else charCodeAt val 0

/-- A byte-width variable `g`, the operand object at address 1. -/
def flagG : SymOpd :=
  { addr := 1, name := "g", width := .BYTE, valStr := "[g]" }

/-- A byte-width variable `t`, the operand object at address 2. -/
def flagT : SymOpd :=
  { addr := 2, name := "t", width := .BYTE, valStr := "[t]" }

/-- A machine state in which the cell of `g`, `-24(%rbp)`, holds 1 (true) and every other
cell and register holds 0. -/
def flagMachine : CmpMachine :=
  { rax := 0, rbx := 0, flags := { zf := false, sf := false, of := false },
    mem := fun t => if t = "-24(%rbp)" then 1 else 0 }

/-- A machine state in which the cells of `g` and `t` agree in their low byte (both 1)
and differ in the second byte: `-24(%rbp)` holds 1 and `-32(%rbp)` holds 257. -/
def staleMachine : CmpMachine :=
  { rax := 0, rbx := 0, flags := { zf := false, sf := false, of := false },
    mem := fun t => if t = "-24(%rbp)" then 1 else if t = "-32(%rbp)" then 257 else 0 }

/-! ## Frame layout: lemmas -/

theorem allocFrameSlots_fst (as : List Nat) (offset : Int) (locs : Locs) :
    (allocFrameSlots as offset locs).1 = offset - 8 * (as.length : Int) := by
  induction as generalizing offset locs with
  | nil => simp [allocFrameSlots]
  | cons a rest ih =>
    simp only [allocFrameSlots, ih, List.length_cons]
    push_cast
    ring

theorem allocFrameSlots_append (as bs : List Nat) (offset : Int) (locs : Locs) :
    allocFrameSlots (as ++ bs) offset locs
      = allocFrameSlots bs (allocFrameSlots as offset locs).1
          (allocFrameSlots as offset locs).2 := by
  induction as generalizing offset locs with
  | nil => simp [allocFrameSlots]
  | cons a rest ih =>
    show allocFrameSlots (a :: (rest ++ bs)) offset locs = _
    simp only [allocFrameSlots, ih]

theorem allocFrameSlots_not_mem (as : List Nat) (offset : Int) (locs : Locs) (a : Nat)
    (h : a ∉ as) : (allocFrameSlots as offset locs).2 a = locs a := by
  induction as generalizing offset locs with
  | nil => simp [allocFrameSlots]
  | cons b rest ih =>
    simp only [List.mem_cons, not_or] at h
    simp only [allocFrameSlots]
    rw [ih _ _ h.2]
    simp [setMemoryLoc, h.1]

theorem allocFrameSlots_get (as : List Nat) (offset : Int) (locs : Locs)
    (hd : as.Nodup) (k : Nat) (hk : k < as.length) :
    (allocFrameSlots as offset locs).2 (as.get ⟨k, hk⟩)
      = toString (offset - 8 * (k : Int)) ++ "(%rbp)" := by
  induction as generalizing offset locs k with
  | nil => simp at hk
  | cons a rest ih =>
    have hd2 := List.nodup_cons.mp hd
    cases k with
    | zero =>
      show (allocFrameSlots rest (offset - 8) _).2 a = _
      rw [allocFrameSlots_not_mem _ _ _ _ hd2.1]
      simp [setMemoryLoc]
    | succ j =>
      show (allocFrameSlots rest (offset - 8) _).2 (rest.get ⟨j, by simpa using hk⟩) = _
      rw [ih _ _ hd2.2 j (by simpa using hk)]
      congr 2
      push_cast
      ring

theorem allocLocals_eq (p : Procedure) (locs : Locs) :
    p.allocLocals locs = (allocFrameSlots p.frameOpds (-24) locs).2 := by
  simp [Procedure.allocLocals, Procedure.frameOpds, allocFrameSlots_append]

/-! ## Decimal printing is injective -/

theorem digitChar_toNat (d : Nat) (h : d < 10) : (Nat.digitChar d).toNat - 48 = d := by
  interval_cases d <;> rfl

theorem toDigitsCore_acc (fuel n : Nat) (ds : List Char) :
    Nat.toDigitsCore 10 fuel n ds = Nat.toDigitsCore 10 fuel n [] ++ ds := by
  induction fuel generalizing n ds with
  | zero => simp [Nat.toDigitsCore]
  | succ f ih =>
    simp only [Nat.toDigitsCore]
    split
    · simp
    · rw [ih, ih (n / 10) [_]]
      simp

theorem decValue_snoc (as : List Char) (c : Char) :
    decValue (as ++ [c]) = 10 * decValue as + (c.toNat - 48) := by
  simp [decValue, List.foldl_append]

theorem decValue_toDigitsCore (fuel n : Nat) (h : n < fuel) :
    decValue (Nat.toDigitsCore 10 fuel n []) = n := by
  induction fuel generalizing n with
  | zero => omega
  | succ f ih =>
    simp only [Nat.toDigitsCore]
    split
    · simp [decValue, digitChar_toNat _ (Nat.mod_lt n (by decide))]
      omega
    · rw [toDigitsCore_acc, decValue_snoc, ih (n / 10) (by omega),
        digitChar_toNat _ (Nat.mod_lt n (by decide))]
      omega

theorem decValue_repr (n : Nat) : decValue (Nat.repr n).data = n := by
  simp [Nat.repr, Nat.toDigits, List.asString, decValue_toDigitsCore]

theorem toString_negSucc_inj (a b : Nat)
    (h : toString (Int.negSucc a) = toString (Int.negSucc b)) : a = b := by
  have h1 : "-" ++ Nat.repr (a + 1) = "-" ++ Nat.repr (b + 1) := h
  have h2 := congrArg String.data h1
  simp only [String.data_append, List.append_cancel_left_eq] at h2
  have h3 := congrArg decValue h2
  rw [decValue_repr, decValue_repr] at h3
  omega

theorem frameOffset_negSucc (k : Nat) : frameOffset k = Int.negSucc (23 + 8 * k) := by
  simp only [frameOffset, Int.negSucc_eq]
  push_cast
  ring

theorem frameLoc_inj (j k : Nat)
    (h : toString (frameOffset j) ++ "(%rbp)" = toString (frameOffset k) ++ "(%rbp)") :
    j = k := by
  have h2 := congrArg String.data h
  simp only [String.data_append, List.append_cancel_right_eq] at h2
  have h3 : toString (frameOffset j) = toString (frameOffset k) := String.ext h2
  rw [frameOffset_negSucc, frameOffset_negSucc] at h3
  have := toString_negSucc_inj _ _ h3
  omega

/-! ## Static labels: lemmas -/

theorem assignAll_not_mem (ps : List (Nat × String)) (locs : Locs) (a : Nat)
    (h : a ∉ ps.map Prod.fst) : assignAll ps locs a = locs a := by
  induction ps generalizing locs with
  | nil => rfl
  | cons p rest ih =>
    simp only [List.map_cons, List.mem_cons, not_or] at h
    simp only [assignAll]
    rw [ih _ h.2]
    simp [setMemoryLoc, h.1]

theorem assignAll_mem (ps : List (Nat × String)) (locs : Locs) (hd : (ps.map Prod.fst).Nodup)
    (a : Nat) (l : String) (h : (a, l) ∈ ps) : assignAll ps locs a = l := by
  induction ps generalizing locs with
  | nil => simp at h
  | cons p rest ih =>
    simp only [List.map_cons, List.nodup_cons] at hd
    simp only [assignAll]
    rcases List.mem_cons.mp h with h1 | h1
    · subst h1
      rw [assignAll_not_mem _ _ _ hd.1]
      simp [setMemoryLoc]
    · exact ih _ hd.2 h1

theorem allocGlobalsLoop_eq (gs : List SymOpd) (locs : Locs) :
    allocGlobalsLoop gs locs
      = assignAll (gs.map fun g => (g.addr, "gbl_" ++ g.name)) locs := by
  induction gs generalizing locs with
  | nil => rfl
  | cons g rest ih => simp only [allocGlobalsLoop, List.map_cons, assignAll, ih]

theorem allocStringsLoop_eq (label : String → String) (ps : List (AuxOpd × String))
    (pre : List String) (locs : Locs)
    (h : ∀ p ∈ ps, stringLabel p.2 = some (label p.2)) :
    allocStringsLoop (pre ++ ps.map Prod.snd) (ps.map Prod.fst) pre.length locs
      = .ok (assignAll (ps.map fun p => (p.1.addr, label p.2)) locs) := by
  induction ps generalizing pre locs with
  | nil => rfl
  | cons p rest ih =>
    have hp := h p (List.mem_cons_self _ _)
    have hrest : ∀ q ∈ rest, stringLabel q.2 = some (label q.2) :=
      fun q hq => h q (List.mem_cons_of_mem _ hq)
    have hget : (pre ++ p.2 :: rest.map Prod.snd).getD pre.length "" = p.2 := by
      rw [List.getD_eq_getElem?_getD, List.getElem?_append_right (le_refl _)]
      simp
    simp only [List.map_cons, allocStringsLoop]
    rw [hget, hp]
    have := ih (pre ++ [p.2]) (setMemoryLoc locs p.1.addr (label p.2)) hrest
    simp only [List.append_assoc, List.singleton_append, List.length_append,
      List.length_singleton] at this
    simpa [assignAll] using this

theorem allocStringsLoop_not_mem (strings : List String) (auxs : List AuxOpd) (itr : Nat)
    (locs : Locs) (a : Nat) (h : a ∉ auxs.map AuxOpd.addr) :
    (allocStringsLoop strings auxs itr locs).state a = locs a := by
  induction auxs generalizing itr locs with
  | nil => rfl
  | cons x rest ih =>
    simp only [List.map_cons, List.mem_cons, not_or] at h
    simp only [allocStringsLoop]
    cases stringLabel (strings.getD itr "") with
    | none => rfl
    | some tmp =>
      simp only []
      rw [ih _ _ h.2]
      simp [setMemoryLoc, h.1]

theorem str_prefix_filter :
    List.filter (fun c => !ispunct c && !isspace c) "str_".data = "str".data := by
  decide

theorem stringLabel_eq (text : String) (h2 : 2 ≤ text.length) (hmax : text.length < 2 ^ 64) :
    stringLabel text = some (strippedLabel text) := by
  have hlen : text.length = text.data.length := rfl
  have hn : (text.length + (2 ^ 64 - 2)) % 2 ^ 64 = text.length - 2 := by omega
  have h1 : ¬ 1 > text.length := by omega
  have htake : (text.data.drop 1).take (text.length - 2) = (text.data.drop 1).dropLast := by
    rw [List.dropLast_eq_take, List.length_drop, hlen]
    rfl
  unfold stringLabel substr
  rw [hn, if_neg h1]
  refine congrArg some (String.ext ?_)
  show List.filter (fun c => !ispunct c)
      (List.filter (fun c => !isspace c) ("str_".data ++ (text.data.drop 1).take _))
    = "str".data ++ List.filter (fun c => !isspace c && !ispunct c)
        (text.data.drop 1).dropLast
  rw [htake, List.filter_filter, List.filter_append, str_prefix_filter]
  refine congrArg (fun t => "str".data ++ t) (List.filter_congr ?_)
  intro c _
  exact Bool.and_comm _ _

/-! ## Properties of the lowering -/

/-- C1: for every procedure, the amount the Enter lowering subtracts from `%rsp`
(`size + size % 16` with `size = localsSize = 8 * (|locals| + |temporaries| + |formals|)`)
equals the amount the Leave lowering adds back, that amount is a multiple of 16, and it
is the amount printed in the `subq`/`addq` lines the two lowerings emit. -/
theorem C1_enter_leave_frame_size (myProc : Procedure) :
    myProc.localsSize
        = 8 * (myProc.locals.length + myProc.temps.length + myProc.formals.length)
      ∧ EnterQuad.size myProc = LeaveQuad.size myProc
      ∧ (16 : Int) ∣ EnterQuad.size myProc
      ∧ (∀ out : String, EnterQuad.codegenX64 myProc out
          = out ++ "pushq %rbp\n" ++ "movq %rsp, %rbp\n" ++ "addq $16, %rbp\n"
              ++ "subq $" ++ toString (EnterQuad.size myProc) ++ ", %rsp\n")
      ∧ (∀ out : String, LeaveQuad.codegenX64 myProc out
          = out ++ "addq $" ++ toString (EnterQuad.size myProc) ++ ", %rsp\n"
              ++ "popq %rbp\n" ++ "retq\n") := by
  refine ⟨rfl, rfl, ?_, fun _ => rfl, fun _ => rfl⟩
  simp only [EnterQuad.size, Procedure.localsSize]
  have h0 : (0 : Int)
      ≤ ((8 * (myProc.locals.length + myProc.temps.length + myProc.formals.length) : Nat)
          : Int) := Int.ofNat_nonneg _
  rw [Int.tmod_eq_emod h0 (by decide)]
  push_cast
  omega

/-- C2: for every procedure whose frame operands are distinct objects,
`Procedure::allocLocals` assigns to the `k`-th operand (0-based) of
locals ++ temporaries ++ formals the location `"<-24 - 8k>(%rbp)"`; the offsets are
strictly decreasing in that order, pairwise distinct (and so are the location texts), and
multiples of 8. -/
theorem C2_allocLocals_offsets (p : Procedure) (locs : Locs) (hd : p.frameOpds.Nodup) :
    (∀ (k : Nat) (hk : k < p.frameOpds.length),
        p.allocLocals locs (p.frameOpds.get ⟨k, hk⟩)
          = toString (frameOffset k) ++ "(%rbp)")
      ∧ (∀ j k : Nat, j < k → frameOffset k < frameOffset j)
      ∧ (∀ j k : Nat, j ≠ k → frameOffset j ≠ frameOffset k)
      ∧ (∀ j k : Nat, j ≠ k →
          toString (frameOffset j) ++ "(%rbp)" ≠ toString (frameOffset k) ++ "(%rbp)")
      ∧ (∀ k : Nat, (8 : Int) ∣ frameOffset k) := by
  refine ⟨?_, ?_, ?_, fun j k h e => h (frameLoc_inj j k e), ?_⟩
  · intro k hk
    rw [allocLocals_eq, allocFrameSlots_get _ _ _ hd k hk]
    rfl
  · intro j k h
    simp only [frameOffset]
    omega
  · intro j k h
    simp only [frameOffset]
    omega
  · intro k
    simp only [frameOffset]
    omega

/-- Witness of C2 on `exampleProc`: its three operands get `-24`, `-32`, `-40`. -/
theorem C2_allocLocals_offsets_witness :
    exampleProc.frameOpds.Nodup
      ∧ ((∀ (k : Nat) (hk : k < exampleProc.frameOpds.length),
            exampleProc.allocLocals exampleLocs (exampleProc.frameOpds.get ⟨k, hk⟩)
              = toString (frameOffset k) ++ "(%rbp)")
        ∧ (∀ j k : Nat, j < k → frameOffset k < frameOffset j)
        ∧ (∀ j k : Nat, j ≠ k → frameOffset j ≠ frameOffset k)
        ∧ (∀ j k : Nat, j ≠ k →
            toString (frameOffset j) ++ "(%rbp)" ≠ toString (frameOffset k) ++ "(%rbp)")
        ∧ (∀ k : Nat, (8 : Int) ∣ frameOffset k)) :=
  ⟨by decide, C2_allocLocals_offsets exampleProc exampleLocs (by decide)⟩

/-! ### Stores into a literal -/

/-- The lowerings that store through `genStore` throw on a literal destination: the six
arithmetic and logical binary operators, both unary operators, Assign, Intrinsic/Input,
ReceiveArgument 1 to 6 and GetReturnValue. -/
theorem literal_store_paths_throw (locs : Locs) (l : LitOpd) (s1 s2 : Opd) (out : String) :
    (∀ op : BinOp, op ∈ [BinOp.ADD, .SUB, .DIV, .MULT, .OR, .AND] →
        ∃ text, BinOpQuad.codegenX64 locs ⟨.lit l, op, s1, s2⟩ out
          = .thrown text "Cannot use literal as l-val")
      ∧ (∀ op : UnaryOp, ∃ text, UnaryOpQuad.codegenX64 locs ⟨.lit l, op, s1⟩ out
          = .thrown text "Cannot use literal as l-val")
      ∧ (∃ text, AssignQuad.codegenX64 locs ⟨.lit l, s1⟩ out
          = .thrown text "Cannot use literal as l-val")
      ∧ (∃ text, IntrinsicQuad.codegenX64 locs ⟨.INPUT, .lit l⟩ out
          = .thrown text "Cannot use literal as l-val")
      ∧ (∀ i : Nat, 1 ≤ i → i ≤ 6 → GetArgQuad.codegenX64 locs ⟨i, .lit l⟩ out
          = .thrown out "Cannot use literal as l-val")
      ∧ GetRetQuad.codegenX64 locs ⟨.lit l⟩ out
          = .thrown out "Cannot use literal as l-val" := by
  refine ⟨?_, ?_, ?_, ?_, ?_, rfl⟩
  · intro op hop
    simp only [List.mem_cons, List.mem_singleton, List.not_mem_nil, or_false] at hop
    rcases hop with h | h | h | h | h | h <;> subst h <;> exact ⟨_, rfl⟩
  · intro op
    cases op <;> exact ⟨_, rfl⟩
  · exact ⟨_, rfl⟩
  · exact ⟨_, rfl⟩
  · intro i h1 h6
    have : i = 1 ∨ i = 2 ∨ i = 3 ∨ i = 4 ∨ i = 5 ∨ i = 6 := by omega
    rcases this with h | h | h | h | h | h <;> subst h <;> rfl

/-- The six comparison operators write the destination without `genStore`: with a literal
destination the lowering returns normally, having emitted a byte move to the literal's
location. -/
theorem literal_compare_paths_return (locs : Locs) (l : LitOpd) (s1 s2 : Opd) (out : String)
    (op : BinOp) (hop : op ∈ [BinOp.EQ, .NEQ, .LT, .GT, .LTE, .GTE]) :
    ∃ text, BinOpQuad.codegenX64 locs ⟨.lit l, op, s1, s2⟩ out
      = .ok (text ++ "movb %al, " ++ l.memLoc ++ "\n") := by
  simp only [List.mem_cons, List.mem_singleton, List.not_mem_nil, or_false] at hop
  rcases hop with h | h | h | h | h | h <;> subst h <;>
    exact ⟨_, rfl⟩

/-- C3 fails on the code at `BinaryOp EQ` with a literal destination: the lowering of
`0 := a == b` raises no error and returns normally, having emitted the write
`movb %al, $0` to the literal. -/
theorem C3_eq_literal_dst_returns :
    BinOpQuad.codegenX64 exampleLocs
        ⟨.lit exampleLit, .EQ, .sym exampleA, .sym exampleB⟩ ""
      = .ok ("movq -24(%rbp), %rax\nmovq -32(%rbp), %rbx\n"
          ++ "cmpq %rbx, %rax\nsete %al\nmovb %al, $0\n") := by
  decide

/-! ### Labels of string literals and globals -/

theorem strippedLabel_inj (s t : String) (h : strippedLabel s = strippedLabel t) :
    strippedText s = strippedText t := by
  have h2 := congrArg String.data h
  simp only [strippedLabel, String.data_append, List.append_cancel_left_eq] at h2
  exact String.ext h2

theorem globalLabel_inj (s t : String) (h : "gbl_" ++ s = "gbl_" ++ t) : s = t := by
  have h2 := congrArg String.data h
  simp only [String.data_append, List.append_cancel_left_eq] at h2
  exact String.ext h2

/-- C4 fails on the code: the distinct literals `"ab"` and `"a b"` both receive the label
`strab`. -/
theorem C4_ab_and_a_b_collide :
    "\"ab\"" ≠ "\"a b\""
      ∧ ∃ locs, twoStringsProgram.allocGlobals exampleLocs = .ok locs
          ∧ locs 1 = "strab" ∧ locs 2 = "strab" :=
  ⟨by decide, _, rfl, by decide, by decide⟩

/-- C4 as amended: for every program whose string literals carry their quotation marks
(texts of at least two characters) and have distinct backing operands,
`IRProgram::allocGlobals` returns, the label of each literal is `str` followed by its
stripped text, and two literals receive distinct labels exactly when their stripped
texts differ. -/
theorem C4_string_labels_distinct_iff (prog : IRProgram) (locs : Locs)
    (hd : (prog.strings.map fun p => p.1.addr).Nodup)
    (hlen : ∀ p ∈ prog.strings, 2 ≤ p.2.length ∧ p.2.length < 2 ^ 64) :
    ∃ locs', prog.allocGlobals locs = .ok locs'
      ∧ (∀ p ∈ prog.strings, locs' p.1.addr = "str" ++ strippedText p.2)
      ∧ (∀ p ∈ prog.strings, ∀ q ∈ prog.strings,
          (locs' p.1.addr ≠ locs' q.1.addr ↔ strippedText p.2 ≠ strippedText q.2)) := by
  have hlab : ∀ p ∈ prog.strings, stringLabel p.2 = some (strippedLabel p.2) :=
    fun p hp => stringLabel_eq p.2 (hlen p hp).1 (hlen p hp).2
  have hrun := allocStringsLoop_eq strippedLabel prog.strings []
    (allocGlobalsLoop prog.getGlobals locs) hlab
  have hget : ∀ p ∈ prog.strings,
      assignAll (prog.strings.map fun p => (p.1.addr, strippedLabel p.2))
        (allocGlobalsLoop prog.getGlobals locs) p.1.addr = strippedLabel p.2 := by
    intro p hp
    apply assignAll_mem
    · simpa [List.map_map, Function.comp_def] using hd
    · exact List.mem_map.mpr ⟨p, hp, rfl⟩
  refine ⟨_, hrun, hget, ?_⟩
  intro p hp q hq
  rw [hget p hp, hget q hq]
  constructor
  · intro h e
    exact h (by simp only [strippedLabel, e])
  · intro h e
    exact h (strippedLabel_inj _ _ e)

/-- Witness of C4 as amended, on `exampleProgram`. -/
theorem C4_string_labels_distinct_iff_witness :
    (exampleProgram.strings.map fun p => p.1.addr).Nodup
      ∧ (∀ p ∈ exampleProgram.strings, 2 ≤ p.2.length ∧ p.2.length < 2 ^ 64)
      ∧ ∃ locs', exampleProgram.allocGlobals exampleLocs = .ok locs'
        ∧ (∀ p ∈ exampleProgram.strings, locs' p.1.addr = "str" ++ strippedText p.2)
        ∧ (∀ p ∈ exampleProgram.strings, ∀ q ∈ exampleProgram.strings,
            (locs' p.1.addr ≠ locs' q.1.addr ↔ strippedText p.2 ≠ strippedText q.2)) :=
  ⟨by decide, by decide,
    C4_string_labels_distinct_iff exampleProgram exampleLocs (by decide) (by decide)⟩

/-- C5: for every program whose static operands are distinct objects,
`IRProgram::allocGlobals` leaves every global operand with the label `gbl_` followed by
its name; that label is not empty, and globals with different names have different
labels. -/
theorem C5_global_labels (prog : IRProgram) (locs : Locs) (hd : prog.staticOpds.Nodup) :
    ∀ g ∈ prog.globals,
      (prog.allocGlobals locs).state g.addr = "gbl_" ++ g.name
        ∧ (prog.allocGlobals locs).state g.addr ≠ ""
        ∧ ∀ g' ∈ prog.globals, g.name ≠ g'.name →
            (prog.allocGlobals locs).state g.addr ≠ (prog.allocGlobals locs).state g'.addr := by
  have hd2 := List.nodup_append.mp hd
  have hlab : ∀ g ∈ prog.globals,
      (prog.allocGlobals locs).state g.addr = "gbl_" ++ g.name := by
    intro g hg
    have hnot : g.addr ∉ prog.getAuxForStrings.map AuxOpd.addr := by
      intro hmem
      refine hd2.2.2 (List.mem_map.mpr ⟨g, hg, rfl⟩) ?_
      simpa [IRProgram.getAuxForStrings, List.map_map, Function.comp_def] using hmem
    simp only [IRProgram.allocGlobals]
    rw [allocStringsLoop_not_mem _ _ _ _ _ hnot, allocGlobalsLoop_eq]
    apply assignAll_mem
    · simpa [List.map_map, Function.comp_def, IRProgram.getGlobals] using hd2.1
    · exact List.mem_map.mpr ⟨g, hg, rfl⟩
  intro g hg
  refine ⟨hlab g hg, ?_, ?_⟩
  · rw [hlab g hg]
    intro h
    have := congrArg String.length h
    simp only [String.length_append] at this
    have h4 : "gbl_".length = 4 := by decide
    have h0 : "".length = 0 := by decide
    omega
  · intro g' hg' hne
    rw [hlab g hg, hlab g' hg']
    exact fun e => hne (globalLabel_inj _ _ e)

/-- Witness of C5 on `exampleProgram`. -/
theorem C5_global_labels_witness :
    exampleProgram.staticOpds.Nodup
      ∧ ∀ g ∈ exampleProgram.globals,
        (exampleProgram.allocGlobals exampleLocs).state g.addr = "gbl_" ++ g.name
          ∧ (exampleProgram.allocGlobals exampleLocs).state g.addr ≠ ""
          ∧ ∀ g' ∈ exampleProgram.globals, g.name ≠ g'.name →
              (exampleProgram.allocGlobals exampleLocs).state g.addr
                ≠ (exampleProgram.allocGlobals exampleLocs).state g'.addr :=
  ⟨by decide, C5_global_labels exampleProgram exampleLocs (by decide)⟩

/-! ### Argument passing -/

/-- C6: for every index `i` in 1..6 and every storage-backed operand, PassArgument(i)
loads the operand into the register ReceiveArgument(i) stores from, and that register is
`%rdi`, `%rsi`, `%rdx`, `%rcx`, `%r8`, `%r9` for `i` = 1, ..., 6. -/
theorem C6_argument_registers (i : Nat) (h1 : 1 ≤ i) (h6 : i ≤ 6) (o : Opd)
    (hs : o.isStorageBacked = true) (locs : Locs) (out : String) :
    SetArgQuad.codegenX64 locs ⟨i, o⟩ out
        = .ok (out ++ "movq " ++ o.getMemoryLoc locs ++ ", " ++ argRegister i ++ "\n")
      ∧ GetArgQuad.codegenX64 locs ⟨i, o⟩ out
        = .ok (out ++ "movq " ++ argRegister i ++ ", " ++ o.getMemoryLoc locs ++ "\n")
      ∧ [argRegister 1, argRegister 2, argRegister 3, argRegister 4, argRegister 5,
          argRegister 6] = ["%rdi", "%rsi", "%rdx", "%rcx", "%r8", "%r9"] := by
  have hi : i = 1 ∨ i = 2 ∨ i = 3 ∨ i = 4 ∨ i = 5 ∨ i = 6 := by omega
  refine ⟨?_, ?_, by decide⟩
  · cases o with
    | lit l => simp [Opd.isStorageBacked] at hs
    | sym x => rcases hi with h | h | h | h | h | h <;> subst h <;> rfl
    | aux x => rcases hi with h | h | h | h | h | h <;> subst h <;> rfl
  · cases o with
    | lit l => simp [Opd.isStorageBacked] at hs
    | sym x => rcases hi with h | h | h | h | h | h <;> subst h <;> rfl
    | aux x => rcases hi with h | h | h | h | h | h <;> subst h <;> rfl

/-- Witness of C6: the third argument, the variable `a`. -/
theorem C6_argument_registers_witness :
    SetArgQuad.codegenX64 exampleLocs ⟨3, .sym exampleA⟩ ""
        = .ok ("" ++ "movq " ++ (Opd.sym exampleA).getMemoryLoc exampleLocs ++ ", "
            ++ argRegister 3 ++ "\n")
      ∧ GetArgQuad.codegenX64 exampleLocs ⟨3, .sym exampleA⟩ ""
        = .ok ("" ++ "movq " ++ argRegister 3 ++ ", "
            ++ (Opd.sym exampleA).getMemoryLoc exampleLocs ++ "\n")
      ∧ [argRegister 1, argRegister 2, argRegister 3, argRegister 4, argRegister 5,
          argRegister 6] = ["%rdi", "%rsi", "%rdx", "%rcx", "%r8", "%r9"] :=
  C6_argument_registers 3 (by decide) (by decide) (.sym exampleA) rfl exampleLocs ""

/-- For every index above 6 and every storage-backed operand, PassArgument emits
`subq $8, %rsp` and then a move whose source and destination are both the operand's own
location. -/
theorem setArg_stack_moves_onto_itself (i : Nat) (h : 6 < i) (o : Opd)
    (hs : o.isStorageBacked = true) (locs : Locs) (out : String) :
    SetArgQuad.codegenX64 locs ⟨i, o⟩ out
      = .ok (out ++ (StackInsn.subqRsp 8).text
          ++ "movq " ++ o.getMemoryLoc locs ++ ", " ++ o.getMemoryLoc locs ++ "\n") := by
  have e1 : ¬ i = 1 := by omega
  have e2 : ¬ i = 2 := by omega
  have e3 : ¬ i = 3 := by omega
  have e4 : ¬ i = 4 := by omega
  have e5 : ¬ i = 5 := by omega
  have e6 : ¬ i = 6 := by omega
  have ht : (StackInsn.subqRsp 8).text = "subq $8, %rsp\n" := by decide
  cases o with
  | lit l => simp [Opd.isStorageBacked] at hs
  | sym x =>
    simp only [SetArgQuad.codegenX64, e1, e2, e3, e4, e5, e6, if_false, ht]
    rfl
  | aux x =>
    simp only [SetArgQuad.codegenX64, e1, e2, e3, e4, e5, e6, if_false, ht]
    rfl

/-- C7 fails on the code at PassArgument(7) of the variable `a` (location `-24(%rbp)`): the
move emitted after `subq $8, %rsp` has `-24(%rbp)`, the operand's own location, as its
destination, and nothing is written to the reserved slot. -/
theorem C7_setArg7_destination_is_operand :
    SetArgQuad.codegenX64 exampleLocs ⟨7, .sym exampleA⟩ ""
      = .ok "subq $8, %rsp\nmovq -24(%rbp), -24(%rbp)\n" := by
  decide

theorem execAll_passStackArgs (i : Nat) (m : StackRegs) :
    execAll (passStackArgs i) m = { rsp := m.rsp - 8 * ((i - 6 : Nat) : Int), rbp := m.rbp } := by
  unfold passStackArgs
  generalize i - 6 = n
  induction n generalizing m with
  | zero => simp [execAll]
  | succ k ih =>
    have hstep : execAll (List.replicate (k + 1) (StackInsn.subqRsp 8)) m
        = execAll (List.replicate k (StackInsn.subqRsp 8)) ((StackInsn.subqRsp 8).exec m) := by
      simp [execAll, List.replicate_succ]
    rw [hstep, ih]
    simp only [StackInsn.exec, StackRegs.mk.injEq, and_true]
    push_cast
    ring

theorem execAll_callSequence_rbp (m : Nat) (callee : Procedure) (start : StackRegs) :
    (execAll (callSequence m callee) start).rbp = start.rsp - 8 * ((m - 6 : Nat) : Int) := by
  have h : execAll (callSequence m callee) start
      = execAll [.callq ("lbl_fun_" ++ callee.myName), .pushqRbp, .movqRspRbp, .addqRbp 16,
          .subqRsp (EnterQuad.size callee)] (execAll (passStackArgs m) start) := by
    simp [execAll, callSequence, List.foldl_append]
  rw [h, execAll_passStackArgs]
  simp only [execAll, List.foldl_cons, List.foldl_nil, StackInsn.exec]
  ring

/-- The Enter lowering writes exactly the last four instructions of `callSequence`. -/
theorem enter_text (callee : Procedure) (out : String) :
    EnterQuad.codegenX64 callee out
      = out ++ StackInsn.pushqRbp.text ++ StackInsn.movqRspRbp.text
          ++ (StackInsn.addqRbp 16).text ++ (StackInsn.subqRsp (EnterQuad.size callee)).text := by
  have h16 : (StackInsn.addqRbp 16).text = "addq $16, %rbp\n" := by decide
  rw [h16]
  simp only [EnterQuad.codegenX64, StackInsn.text, String.append_assoc]

/-- For every procedure with `m` formals called with `m` arguments and every index `i`
with `6 < i ≤ m`: `Procedure::allocLocals` gives the `i`-th formal the location
`"<-24 - 8(|locals| + |temporaries| + i - 1)>(%rbp)"`, below the callee's `%rbp`, while the
slot the caller reserved for argument `i` is at `%rbp + 8(m - i)`, not below `%rbp`; the
two addresses never coincide. -/
theorem stack_formal_is_not_reserved_slot (p : Procedure) (locs : Locs) (i : Nat)
    (h6 : 6 < i) (hi : i ≤ p.formals.length) (hd : p.frameOpds.Nodup)
    (start : StackRegs) (hk : p.formalPos i < p.frameOpds.length) :
    p.allocLocals locs (p.frameOpds.get ⟨p.formalPos i, hk⟩)
        = toString (frameOffset (p.formalPos i)) ++ "(%rbp)"
      ∧ reservedSlot i start
        = (execAll (callSequence p.formals.length p) start).rbp
            + 8 * ((p.formals.length - i : Nat) : Int)
      ∧ (execAll (callSequence p.formals.length p) start).rbp + frameOffset (p.formalPos i)
        < reservedSlot i start := by
  refine ⟨?_, ?_, ?_⟩
  · rw [allocLocals_eq, allocFrameSlots_get _ _ _ hd _ hk]
    rfl
  · rw [execAll_callSequence_rbp, reservedSlot, execAll_passStackArgs]
    simp only []
    omega
  · rw [execAll_callSequence_rbp, reservedSlot, execAll_passStackArgs]
    simp only [frameOffset]
    omega

/-- C8 fails on the code for a procedure with seven formals called with seven arguments:
`Procedure::allocLocals` gives the seventh formal the location `-72(%rbp)` and
ReceiveArgument(7) emits nothing, while the slot the caller reserved for argument 7 is at
`0(%rbp)` once the Enter lowering has set `%rbp`, 72 bytes above the formal's slot. -/
theorem C8_seventh_formal_misses_slot (locs : Locs) (start : StackRegs) :
    sevenFormals.allocLocals locs 7 = "-72(%rbp)"
      ∧ GetArgQuad.codegenX64 (sevenFormals.allocLocals locs)
          ⟨7, .sym { addr := 7, name := "p", width := .QUADWORD, valStr := "[p]" }⟩ ""
        = .ok ""
      ∧ reservedSlot 7 start = (execAll (callSequence 7 sevenFormals) start).rbp + 0
      ∧ (execAll (callSequence 7 sevenFormals) start).rbp + (-72) ≠ reservedSlot 7 start := by
  refine ⟨by rfl, by rfl, ?_, ?_⟩
  · rw [execAll_callSequence_rbp, reservedSlot, execAll_passStackArgs]
    simp
  · rw [execAll_callSequence_rbp, reservedSlot, execAll_passStackArgs]
    simp

/-! ### Relational operators -/

theorem condCode_holds_iff (a b : Int) (ha : -2 ^ 63 ≤ a ∧ a < 2 ^ 63)
    (hb : -2 ^ 63 ≤ b ∧ b < 2 ^ 63) :
    (CondCode.holds .e (cmpq b a) = true ↔ a = b)
      ∧ (CondCode.holds .ne (cmpq b a) = true ↔ a ≠ b)
      ∧ (CondCode.holds .l (cmpq b a) = true ↔ a < b)
      ∧ (CondCode.holds .g (cmpq b a) = true ↔ a > b)
      ∧ (CondCode.holds .le (cmpq b a) = true ↔ a ≤ b)
      ∧ (CondCode.holds .ge (cmpq b a) = true ↔ a ≥ b) := by
  simp only [CondCode.holds, cmpq, wrap64]
  norm_num at ha hb ⊢
  by_cases h1 :
      (a - b + 9223372036854775808) % 18446744073709551616 - 9223372036854775808 < 0 <;>
  by_cases h2 :
      (a - b + 9223372036854775808) % 18446744073709551616 - 9223372036854775808 = a - b <;>
  by_cases h3 :
      (a - b + 9223372036854775808) % 18446744073709551616 - 9223372036854775808 = 0 <;>
  simp [h1, h2, h3] <;> omega

/-! ### End-to-end scenario -/

theorem scenario_datagen (enterLabels leaveLabels : List String) (locs : Locs) :
    (scenarioProgram enterLabels leaveLabels).datagenX64 locs ""
      = .ok (setMemoryLoc locs 1 "gbl_x", ".data\ngbl_x:\n   .quad 0\n.align 8\n\n") := by
  rfl

theorem scenario_frame_size (e l : List String) (q : List Quad) :
    toString (EnterQuad.size (Procedure.mk "main" [] [] [] e q l)) = "0"
      ∧ toString (LeaveQuad.size (Procedure.mk "main" [] [] [] e q l)) = "0" := by
  simp only [EnterQuad.size, LeaveQuad.size, Procedure.localsSize]
  exact ⟨rfl, rfl⟩

/-- C9: for the program with one global `x` and one procedure `main` whose body is
`Assign(x, 5)` then `Intrinsic/Output(x)`, `IRProgram::toX64` returns normally and emits
the data section with `gbl_x:` and `.quad 0`, then `main:` with the Enter lowering, the
Assign lowering `movq $5, %rax` and `movq %rax, gbl_x`, then `movq gbl_x, %rdi` and
`callq printInt`, then the labels of the Leave instruction and the Leave lowering
(`addq` to `%rsp`, `popq %rbp`, `retq`). -/
theorem C9_scenario_output (enterLabels leaveLabels : List String) (locs : Locs) :
    (scenarioProgram enterLabels leaveLabels).toX64 locs ""
      = .ok (setMemoryLoc locs 1 "gbl_x",
          codegenLabels leaveLabels
              (".data\n" ++ "gbl_x:\n" ++ "   .quad 0\n" ++ ".align 8\n\n"
                ++ ".text\n" ++ ".globl main\n"
                ++ "main:\n"
                ++ "pushq %rbp\n" ++ "movq %rsp, %rbp\n" ++ "addq $16, %rbp\n"
                ++ "subq $0, %rsp\n"
                ++ "movq $5, %rax\n" ++ "movq %rax, gbl_x\n"
                ++ "movq gbl_x, %rdi\n" ++ "callq printInt\n")
            ++ "addq $0, %rsp\n" ++ "popq %rbp\n" ++ "retq\n") := by
  have hx : setMemoryLoc locs 1 "gbl_x" 1 = "gbl_x" := by simp [setMemoryLoc]
  have hsz := fun e l q => (scenario_frame_size e l q).1
  have hsz2 := fun e l q => (scenario_frame_size e l q).2
  rw [IRProgram.toX64, scenario_datagen]
  simp [Outcome.andThen, scenarioProgram, IRProgram.getProcs, procsToX64, Procedure.toX64,
    Procedure.allocLocals, allocFrameSlots, codegenBody, Quad.codegenX64,
    AssignQuad.codegenX64, IntrinsicQuad.codegenX64, Opd.genLoad, Opd.genStore,
    SymOpd.genLoad, SymOpd.genStore, LitOpd.genLoad, scenarioX, scenarioFive, hx,
    EnterQuad.codegenX64, LeaveQuad.codegenX64, Opd.getWidth, hsz, hsz2]
  simp only [String.append_assoc]
  rfl

/-! ### Loads of byte literals -/

/-- For every byte-width literal and register, `LitOpd::genLoad` emits one move of the
immediate `byteImmediate val`: 0 when the first character is `0`, else 1 when the second
character is `1`, else the code of the first character. -/
theorem byte_literal_load (l : LitOpd) (hw : l.width = .BYTE) (out r : String) :
    l.genLoad out r = out ++ "movq $" ++ toString (byteImmediate l.val) ++ ", " ++ r ++ "\n" := by
  unfold LitOpd.genLoad byteImmediate
  rw [if_pos hw]
  split
  · simp only [String.append_assoc]
    rfl
  · split
    · simp only [String.append_assoc]
      rfl
    · rfl

/-- C11 fails on the code at the byte literal whose text is the true encoding `1`:
`LitOpd::genLoad` tests the second character (`val[1]`) against the code of `1`, so the
text `1` falls through to the last case and the immediate emitted is 49, the character
code, not 1; the text `0` does give the immediate 0. -/
theorem C11_true_literal_loads_49 :
    exampleTrue.genLoad "" "%rax" = "movq $49, %rax\n"
      ∧ byteImmediate "1" = 49
      ∧ byteImmediate "0" = 0
      ∧ byteImmediate "a" = 97 := by
  decide

/-! ### Intrinsic calls -/

/-- C14: for every Intrinsic instruction with a storage-backed argument the lowering
returns normally and emits exactly one `callq`.  Output loads the argument into `%rdi`
(its label as an immediate for address width) and calls `printInt`, `printByte` or
`printString` for quadword, byte or address width.  Input calls `getInt` for quadword,
`getBool` for byte width when the argument's printed text is longer than one character
and `getChar` otherwise, and then stores `%rax` into the argument. -/
theorem C14_intrinsic_dispatch (locs : Locs) (o : Opd) (hs : o.isStorageBacked = true)
    (out : String) :
    IntrinsicQuad.codegenX64 locs ⟨.OUTPUT, o⟩ out
        = .ok (out ++ (if o.getWidth = .ADDR then "movq $" else "movq ")
            ++ o.getMemoryLoc locs ++ ", %rdi\n"
            ++ "callq " ++ outputTarget o.getWidth ++ "\n")
      ∧ IntrinsicQuad.codegenX64 locs ⟨.INPUT, o⟩ out
        = .ok (out ++ "callq " ++ inputTarget o.getWidth o.valString ++ "\n"
            ++ "movq %rax, " ++ o.getMemoryLoc locs ++ "\n")
      ∧ [outputTarget .QUADWORD, outputTarget .BYTE, outputTarget .ADDR]
          = ["printInt", "printByte", "printString"]
      ∧ (∀ t : String, inputTarget .QUADWORD t = "getInt")
      ∧ (∀ t : String, 1 < t.length → inputTarget .BYTE t = "getBool")
      ∧ (∀ t : String, t.length ≤ 1 → inputTarget .BYTE t = "getChar") := by
  refine ⟨?_, ?_, by decide, fun _ => rfl, ?_, ?_⟩
  · cases o with
    | lit l => simp [Opd.isStorageBacked] at hs
    | sym x =>
      obtain ⟨a, n, w, v⟩ := x
      cases w <;>
        simp [IntrinsicQuad.codegenX64, Opd.getWidth, Opd.getMemoryLoc, Opd.genLoad,
          SymOpd.genLoad, outputTarget, String.append_assoc]
    | aux x =>
      obtain ⟨a, n, w, v⟩ := x
      cases w <;>
        simp [IntrinsicQuad.codegenX64, Opd.getWidth, Opd.getMemoryLoc, Opd.genLoad,
          AuxOpd.genLoad, outputTarget, String.append_assoc]
  · cases o with
    | lit l => simp [Opd.isStorageBacked] at hs
    | sym x =>
      obtain ⟨a, n, w, v⟩ := x
      cases w <;>
        simp [IntrinsicQuad.codegenX64, Opd.getWidth, Opd.getMemoryLoc, Opd.genStore,
          SymOpd.genStore, inputTarget, Opd.valString, String.append_assoc]
      split <;> (simp_all [String.append_assoc]; rfl)
    | aux x =>
      obtain ⟨a, n, w, v⟩ := x
      cases w <;>
        simp [IntrinsicQuad.codegenX64, Opd.getWidth, Opd.getMemoryLoc, Opd.genStore,
          AuxOpd.genStore, inputTarget, Opd.valString, String.append_assoc]
      split <;> (simp_all [String.append_assoc]; rfl)
  · intro t ht
    simp [inputTarget, ht]
  · intro t ht
    have : ¬ 1 < t.length := by omega
    simp [inputTarget, this]

/-- Witness of C14: the quadword variable `a`. -/
theorem C14_intrinsic_dispatch_witness :
    IntrinsicQuad.codegenX64 exampleLocs ⟨.OUTPUT, .sym exampleA⟩ ""
        = .ok ("" ++ (if (Opd.sym exampleA).getWidth = .ADDR then "movq $" else "movq ")
            ++ (Opd.sym exampleA).getMemoryLoc exampleLocs ++ ", %rdi\n"
            ++ "callq " ++ outputTarget (Opd.sym exampleA).getWidth ++ "\n")
      ∧ IntrinsicQuad.codegenX64 exampleLocs ⟨.INPUT, .sym exampleA⟩ ""
        = .ok ("" ++ "callq "
            ++ inputTarget (Opd.sym exampleA).getWidth (Opd.sym exampleA).valString ++ "\n"
            ++ "movq %rax, " ++ (Opd.sym exampleA).getMemoryLoc exampleLocs ++ "\n")
      ∧ [outputTarget .QUADWORD, outputTarget .BYTE, outputTarget .ADDR]
          = ["printInt", "printByte", "printString"]
      ∧ (∀ t : String, inputTarget .QUADWORD t = "getInt")
      ∧ (∀ t : String, 1 < t.length → inputTarget .BYTE t = "getBool")
      ∧ (∀ t : String, t.length ≤ 1 → inputTarget .BYTE t = "getChar") :=
  C14_intrinsic_dispatch exampleLocs (.sym exampleA) rfl ""

/-! ### Return values -/

/-- For a storage-backed operand whose `valString()` starts with `[`, the SetReturnValue
lowering emits the text of the operand's load into `%rax`. -/
theorem setRet_storage_backed (locs : Locs) (o : Opd) (hs : o.isStorageBacked = true)
    (hv : charCodeAt ("$" ++ o.valString) 1 = 91) (out : String) :
    SetRetQuad.codegenX64 locs ⟨o⟩ out = .ok (o.genLoad locs out "%rax") := by
  cases o with
  | lit l => simp [Opd.isStorageBacked] at hs
  | sym x =>
    simp only [SetRetQuad.codegenX64, hv, if_true, Opd.genLoad, SymOpd.genLoad,
      Opd.getMemoryLoc, String.append_assoc]
    rfl
  | aux x =>
    simp only [SetRetQuad.codegenX64, hv, if_true, Opd.genLoad, AuxOpd.genLoad,
      Opd.getMemoryLoc, String.append_assoc]
    rfl

/-- For a literal that is not of byte width, whose `valString()` does not start with `[`
and whose location is the immediate `$valString()`, the SetReturnValue lowering emits the
text of the literal's load into `%rax`. -/
theorem setRet_wide_literal (locs : Locs) (l : LitOpd) (hw : l.width ≠ .BYTE)
    (hv : charCodeAt ("$" ++ l.valStr) 1 ≠ 91) (hloc : l.memLoc = "$" ++ l.valStr)
    (out : String) :
    SetRetQuad.codegenX64 locs ⟨.lit l⟩ out = .ok ((Opd.lit l).genLoad locs out "%rax") := by
  simp only [SetRetQuad.codegenX64, Opd.valString, hv, if_false, Opd.genLoad,
    LitOpd.genLoad, hw, hloc, String.append_assoc]
  rfl

/-- C15 fails on the code at the byte literal for the character `a`: the SetReturnValue
lowering emits `movq $a, %rax`, the text of the literal behind a `$`, while the load of
that operand into `%rax` emits `movq $97, %rax`, its character code. -/
theorem C15_setRet_char_literal_differs :
    SetRetQuad.codegenX64 exampleLocs ⟨.lit exampleChar⟩ "" = .ok "movq $a, %rax\n"
      ∧ (Opd.lit exampleChar).genLoad exampleLocs "" "%rax" = "movq $97, %rax\n" := by
  decide

/-! ### The form of string labels -/

theorem stringLabel_of_pos (text : String) (h : 1 ≤ text.length) :
    ∃ lbl, stringLabel text = some lbl := by
  have h1 : ¬ 1 > text.length := by omega
  unfold stringLabel substr
  rw [if_neg h1]
  exact ⟨_, rfl⟩

theorem stringLabel_clean (text lbl : String) (h : stringLabel text = some lbl) :
    ∀ c ∈ lbl.data, isspace c = false ∧ ispunct c = false := by
  unfold stringLabel at h
  cases hsub : substr text 1 ((text.length + (2 ^ 64 - 2)) % 2 ^ 64) with
  | none => rw [hsub] at h; exact absurd h (by simp)
  | some inner =>
    rw [hsub] at h
    simp only [Option.some.injEq] at h
    subst h
    intro c hc
    simp only [eraseIf, List.mem_filter, Bool.not_eq_true', Bool.not_eq_eq_eq_not,
      Bool.not_true] at hc
    exact ⟨hc.1.2, hc.2⟩

theorem allocGlobals_returns (prog : IRProgram) (locs : Locs) (label : String → String)
    (hd : (prog.strings.map fun p => p.1.addr).Nodup)
    (hlab : ∀ p ∈ prog.strings, stringLabel p.2 = some (label p.2)) :
    ∃ locs', prog.allocGlobals locs = .ok locs'
      ∧ (∀ p ∈ prog.strings, locs' p.1.addr = label p.2)
      ∧ (∀ a, a ∉ (prog.strings.map fun p => p.1.addr) →
          locs' a = allocGlobalsLoop prog.globals locs a) := by
  have hrun := allocStringsLoop_eq label prog.strings []
    (allocGlobalsLoop prog.getGlobals locs) hlab
  refine ⟨_, hrun, ?_, ?_⟩
  · intro p hp
    apply assignAll_mem
    · simpa [List.map_map, Function.comp_def] using hd
    · exact List.mem_map.mpr ⟨p, hp, rfl⟩
  · intro a ha
    apply assignAll_not_mem
    simpa [List.map_map, Function.comp_def] using ha

theorem allocGlobalsLoop_label (gs : List SymOpd) (locs : Locs)
    (hd : (gs.map SymOpd.addr).Nodup) (g : SymOpd) (hg : g ∈ gs) :
    allocGlobalsLoop gs locs g.addr = "gbl_" ++ g.name := by
  rw [allocGlobalsLoop_eq]
  apply assignAll_mem
  · simpa [List.map_map, Function.comp_def] using hd
  · exact List.mem_map.mpr ⟨g, hg, rfl⟩

/-- C16: for every program whose string literals have texts of at least two characters and
distinct backing operands, `IRProgram::allocGlobals` returns and the label of each literal
is `str_` followed by the text without its first and last character, with every whitespace
and punctuation character deleted from the whole; that is `str` followed by the remaining
characters of the text in order; it holds no whitespace and no punctuation character, and
it is not empty. -/
theorem C16_string_label_form (prog : IRProgram) (locs : Locs)
    (hd : (prog.strings.map fun p => p.1.addr).Nodup)
    (hlen : ∀ p ∈ prog.strings, 2 ≤ p.2.length ∧ p.2.length < 2 ^ 64) :
    ∃ locs', prog.allocGlobals locs = .ok locs'
      ∧ ∀ p ∈ prog.strings,
        locs' p.1.addr
            = ⟨("str_".data ++ (p.2.data.drop 1).dropLast).filter
                fun c => !isspace c && !ispunct c⟩
          ∧ locs' p.1.addr
            = "str" ++ ⟨((p.2.data.drop 1).dropLast).filter fun c => !isspace c && !ispunct c⟩
          ∧ (∀ c ∈ (locs' p.1.addr).data, isspace c = false ∧ ispunct c = false)
          ∧ locs' p.1.addr ≠ "" := by
  have hlab : ∀ p ∈ prog.strings, stringLabel p.2 = some (strippedLabel p.2) :=
    fun p hp => stringLabel_eq p.2 (hlen p hp).1 (hlen p hp).2
  obtain ⟨locs', hrun, hget, _⟩ := allocGlobals_returns prog locs strippedLabel hd hlab
  refine ⟨locs', hrun, ?_⟩
  intro p hp
  rw [hget p hp]
  refine ⟨?_, rfl, stringLabel_clean _ _ (hlab p hp), ?_⟩
  · apply String.ext
    show "str".data ++ _ = _
    rw [List.filter_append]
    refine congrArg (fun t => t ++ _) ?_
    decide
  · intro h
    have h2 := congrArg String.length h
    simp only [strippedLabel, String.length_append] at h2
    have h3 : "str".length = 3 := by decide
    have h0 : "".length = 0 := by decide
    omega

/-- Witness of C16 on `exampleProgram`. -/
theorem C16_string_label_form_witness :
    (exampleProgram.strings.map fun p => p.1.addr).Nodup
      ∧ (∀ p ∈ exampleProgram.strings, 2 ≤ p.2.length ∧ p.2.length < 2 ^ 64)
      ∧ ∃ locs', exampleProgram.allocGlobals exampleLocs = .ok locs'
        ∧ ∀ p ∈ exampleProgram.strings,
          locs' p.1.addr
              = ⟨("str_".data ++ (p.2.data.drop 1).dropLast).filter
                  fun c => !isspace c && !ispunct c⟩
            ∧ locs' p.1.addr
              = "str" ++ ⟨((p.2.data.drop 1).dropLast).filter
                  fun c => !isspace c && !ispunct c⟩
            ∧ (∀ c ∈ (locs' p.1.addr).data, isspace c = false ∧ ispunct c = false)
            ∧ locs' p.1.addr ≠ "" :=
  ⟨by decide, by decide,
    C16_string_label_form exampleProgram exampleLocs (by decide) (by decide)⟩

/-- C19: for every program whose static operands are distinct objects and whose string
literals have non-empty texts, `IRProgram::allocGlobals` returns, and no label of a string
literal equals the label of a global: every global label holds the underscore of `gbl_`,
and no string label holds a punctuation character, the underscore included. -/
theorem C19_string_labels_differ_from_globals (prog : IRProgram) (locs : Locs)
    (hd : prog.staticOpds.Nodup) (hne : ∀ p ∈ prog.strings, 1 ≤ p.2.length) :
    ∃ locs', prog.allocGlobals locs = .ok locs'
      ∧ ∀ g ∈ prog.globals, ∀ p ∈ prog.strings,
        locs' p.1.addr ≠ locs' g.addr
          ∧ locs' g.addr = "gbl_" ++ g.name
          ∧ Char.ofNat 95 ∈ (locs' g.addr).data
          ∧ ispunct (Char.ofNat 95) = true
          ∧ ∀ c ∈ (locs' p.1.addr).data, ispunct c = false := by
  have hd2 := List.nodup_append.mp hd
  have hlab : ∀ p ∈ prog.strings,
      stringLabel p.2 = some ((fun t => (stringLabel t).getD "") p.2) := by
    intro p hp
    obtain ⟨lbl, hl⟩ := stringLabel_of_pos p.2 (hne p hp)
    simp [hl]
  obtain ⟨locs', hrun, hget, hother⟩ := allocGlobals_returns prog locs
    (fun t => (stringLabel t).getD "") hd2.2.1 hlab
  refine ⟨locs', hrun, ?_⟩
  intro g hg p hp
  have hnot : g.addr ∉ (prog.strings.map fun p => p.1.addr) :=
    fun hmem => hd2.2.2 (List.mem_map.mpr ⟨g, hg, rfl⟩) hmem
  have hgl : locs' g.addr = "gbl_" ++ g.name := by
    rw [hother _ hnot]
    exact allocGlobalsLoop_label _ _ hd2.1 g hg
  have hclean : ∀ c ∈ (locs' p.1.addr).data, ispunct c = false := by
    intro c hc
    rw [hget p hp] at hc
    exact (stringLabel_clean _ _ (hlab p hp) c hc).2
  have hmem : Char.ofNat 95 ∈ (locs' g.addr).data := by
    rw [hgl, String.data_append]
    exact List.mem_append_left _ (by decide)
  refine ⟨?_, hgl, hmem, by decide, hclean⟩
  intro he
  rw [← he] at hmem
  have := hclean _ hmem
  exact absurd this (by decide)

/-- Witness of C19 on `exampleProgram`. -/
theorem C19_string_labels_differ_from_globals_witness :
    exampleProgram.staticOpds.Nodup
      ∧ (∀ p ∈ exampleProgram.strings, 1 ≤ p.2.length)
      ∧ ∃ locs', exampleProgram.allocGlobals exampleLocs = .ok locs'
        ∧ ∀ g ∈ exampleProgram.globals, ∀ p ∈ exampleProgram.strings,
          locs' p.1.addr ≠ locs' g.addr
            ∧ locs' g.addr = "gbl_" ++ g.name
            ∧ Char.ofNat 95 ∈ (locs' g.addr).data
            ∧ ispunct (Char.ofNat 95) = true
            ∧ ∀ c ∈ (locs' p.1.addr).data, ispunct c = false :=
  ⟨by decide, by decide,
    C19_string_labels_differ_from_globals exampleProgram exampleLocs (by decide) (by decide)⟩

/-! ### The data section -/

theorem datagenGlobals_eq (locs : Locs) (gs : List SymOpd) (out : String) :
    datagenGlobals locs gs out
      = out ++ concatAll (gs.map fun g => locs g.addr ++ ":\n" ++ "   .quad 0\n") := by
  induction gs generalizing out with
  | nil => simp [datagenGlobals, concatAll]
  | cons g rest ih =>
    simp only [datagenGlobals, List.map_cons, concatAll, ih, String.append_assoc]

theorem datagenStrings_eq (locs : Locs) (ps : List (AuxOpd × String)) (pre : List String)
    (out : String) :
    datagenStrings locs (pre ++ ps.map Prod.snd) (ps.map Prod.fst) pre.length out
      = out ++ concatAll
          (ps.map fun p => locs p.1.addr ++ ":\n" ++ ".asciz " ++ p.2 ++ "\n") := by
  induction ps generalizing pre out with
  | nil => simp [datagenStrings, concatAll]
  | cons p rest ih =>
    have hget : (pre ++ p.2 :: rest.map Prod.snd).getD pre.length "" = p.2 := by
      rw [List.getD_eq_getElem?_getD, List.getElem?_append_right (le_refl _)]
      simp
    have hrec := ih (pre ++ [p.2])
      (out ++ locs p.1.addr ++ ":\n" ++ ".asciz " ++ p.2 ++ "\n")
    simp only [List.append_assoc, List.singleton_append, List.length_append,
      List.length_singleton] at hrec
    simp only [List.map_cons, datagenStrings, hget, hrec, concatAll]
    simp only [String.append_assoc]

/-- C13: for every program whose static operands are distinct objects and whose string
literals have non-empty texts, `IRProgram::datagenX64` returns and emits `.data`, then for
each global in order `gbl_<name>:` and one `.quad 0` line, then for each string literal in
order its assigned label and `.asciz <literal text>`, then `.align 8`; there are as many
`.quad 0` blocks as globals and as many `.asciz` blocks as string literals, each under the
location the allocation pass assigned. -/
theorem C13_data_section (prog : IRProgram) (locs : Locs) (out : String)
    (hd : prog.staticOpds.Nodup) (hne : ∀ p ∈ prog.strings, 1 ≤ p.2.length) :
    ∃ locs', prog.allocGlobals locs = .ok locs'
      ∧ prog.datagenX64 locs out
        = .ok (locs',
            out ++ ".data\n"
              ++ concatAll (prog.globals.map fun g =>
                  "gbl_" ++ g.name ++ ":\n" ++ "   .quad 0\n")
              ++ concatAll (prog.strings.map fun p =>
                  locs' p.1.addr ++ ":\n" ++ ".asciz " ++ p.2 ++ "\n")
              ++ ".align 8\n\n")
      ∧ (∀ g ∈ prog.globals, locs' g.addr = "gbl_" ++ g.name)
      ∧ (∀ p ∈ prog.strings, stringLabel p.2 = some (locs' p.1.addr))
      ∧ (prog.globals.map fun g =>
            "gbl_" ++ g.name ++ ":\n" ++ "   .quad 0\n").length = prog.globals.length
      ∧ (prog.strings.map fun p =>
            locs' p.1.addr ++ ":\n" ++ ".asciz " ++ p.2 ++ "\n").length
          = prog.strings.length := by
  have hd2 := List.nodup_append.mp hd
  have hlab : ∀ p ∈ prog.strings,
      stringLabel p.2 = some ((fun t => (stringLabel t).getD "") p.2) := by
    intro p hp
    obtain ⟨lbl, hl⟩ := stringLabel_of_pos p.2 (hne p hp)
    simp [hl]
  obtain ⟨locs', hrun, hget, hother⟩ := allocGlobals_returns prog locs
    (fun t => (stringLabel t).getD "") hd2.2.1 hlab
  have hgl : ∀ g ∈ prog.globals, locs' g.addr = "gbl_" ++ g.name := by
    intro g hg
    have hnot : g.addr ∉ (prog.strings.map fun p => p.1.addr) :=
      fun hmem => hd2.2.2 (List.mem_map.mpr ⟨g, hg, rfl⟩) hmem
    rw [hother _ hnot]
    exact allocGlobalsLoop_label _ _ hd2.1 g hg
  have hmap : (prog.globals.map fun g => locs' g.addr ++ ":\n" ++ "   .quad 0\n")
      = prog.globals.map fun g => "gbl_" ++ g.name ++ ":\n" ++ "   .quad 0\n" := by
    apply List.map_congr_left
    intro g hg
    rw [hgl g hg]
  have hstr := datagenStrings_eq locs' prog.strings []
  simp only [List.nil_append, List.length_nil] at hstr
  refine ⟨locs', hrun, ?_, hgl, ?_, by simp, by simp⟩
  · simp only [IRProgram.datagenX64, hrun, Outcome.andThen, IRProgram.getGlobals,
      IRProgram.getStrings, IRProgram.getAuxForStrings, datagenGlobals_eq, hstr, hmap]
  · intro p hp
    rw [hget p hp]
    exact hlab p hp

/-- Witness of C13 on `exampleProgram`. -/
theorem C13_data_section_witness :
    exampleProgram.staticOpds.Nodup
      ∧ (∀ p ∈ exampleProgram.strings, 1 ≤ p.2.length)
      ∧ ∃ locs', exampleProgram.allocGlobals exampleLocs = .ok locs'
        ∧ exampleProgram.datagenX64 exampleLocs ""
          = .ok (locs',
              "" ++ ".data\n"
                ++ concatAll (exampleProgram.globals.map fun g =>
                    "gbl_" ++ g.name ++ ":\n" ++ "   .quad 0\n")
                ++ concatAll (exampleProgram.strings.map fun p =>
                    locs' p.1.addr ++ ":\n" ++ ".asciz " ++ p.2 ++ "\n")
                ++ ".align 8\n\n")
        ∧ (∀ g ∈ exampleProgram.globals, locs' g.addr = "gbl_" ++ g.name)
        ∧ (∀ p ∈ exampleProgram.strings, stringLabel p.2 = some (locs' p.1.addr))
        ∧ (exampleProgram.globals.map fun g =>
              "gbl_" ++ g.name ++ ":\n" ++ "   .quad 0\n").length
            = exampleProgram.globals.length
        ∧ (exampleProgram.strings.map fun p =>
              locs' p.1.addr ++ ":\n" ++ ".asciz " ++ p.2 ++ "\n").length
            = exampleProgram.strings.length :=
  ⟨by decide, by decide, C13_data_section exampleProgram exampleLocs "" (by decide) (by decide)⟩

/-! ### The emitted text of a procedure -/

theorem prepend_prepend (a b : String) (r : Outcome String) :
    Outcome.prepend a (Outcome.prepend b r) = Outcome.prepend (a ++ b) r := by
  cases r <;> simp [Outcome.prepend, String.append_assoc]

theorem prepend_empty (r : Outcome String) : Outcome.prepend "" r = r := by
  cases r <;> simp [Outcome.prepend]

theorem genLoad_eq (locs : Locs) (o : Opd) (out r : String) :
    o.genLoad locs out r = out ++ o.loadText locs r := by
  cases o with
  | sym x => simp [Opd.loadText, Opd.genLoad, SymOpd.genLoad, String.append_assoc]
  | aux x => simp [Opd.loadText, Opd.genLoad, AuxOpd.genLoad, String.append_assoc]
  | lit x =>
    simp only [Opd.loadText, Opd.genLoad, LitOpd.genLoad]
    split_ifs <;> simp [String.append_assoc]

theorem genStore_eq (locs : Locs) (o : Opd) (out r : String) :
    o.genStore locs out r = Outcome.prepend out (o.storeOutcome locs r) := by
  cases o with
  | sym x =>
    simp [Opd.storeOutcome, Opd.genStore, SymOpd.genStore, Outcome.prepend,
      String.append_assoc]
  | aux x =>
    simp [Opd.storeOutcome, Opd.genStore, AuxOpd.genStore, Outcome.prepend,
      String.append_assoc]
  | lit x => simp [Opd.storeOutcome, Opd.genStore, LitOpd.genStore, Outcome.prepend]

theorem prepend_ok (out t : String) : Outcome.prepend out (.ok t) = .ok (out ++ t) := rfl

theorem binOp_codegen_eq (locs : Locs) (q : BinOpQuad) (out : String) :
    q.codegenX64 locs out = Outcome.prepend out (q.codegenX64 locs "") := by
  obtain ⟨dst, op, src1, src2⟩ := q
  cases op <;>
    simp [BinOpQuad.codegenX64, genLoad_eq, genStore_eq, prepend_prepend, prepend_ok,
      String.append_assoc]

theorem unaryOp_codegen_eq (locs : Locs) (q : UnaryOpQuad) (out : String) :
    q.codegenX64 locs out = Outcome.prepend out (q.codegenX64 locs "") := by
  obtain ⟨dst, op, src⟩ := q
  cases op <;>
    simp [UnaryOpQuad.codegenX64, genLoad_eq, genStore_eq, prepend_prepend, prepend_ok,
      String.append_assoc]

theorem intrinsic_codegen_eq (locs : Locs) (q : IntrinsicQuad) (out : String) :
    q.codegenX64 locs out = Outcome.prepend out (q.codegenX64 locs "") := by
  obtain ⟨kind, arg⟩ := q
  cases kind
  · simp only [IntrinsicQuad.codegenX64, genLoad_eq]
    split_ifs <;> simp [prepend_ok, String.append_assoc]
  · simp only [IntrinsicQuad.codegenX64, genStore_eq]
    split_ifs <;> simp [prepend_prepend]

theorem setArg_codegen_eq (locs : Locs) (q : SetArgQuad) (out : String) :
    q.codegenX64 locs out = Outcome.prepend out (q.codegenX64 locs "") := by
  simp only [SetArgQuad.codegenX64, genLoad_eq]
  split_ifs <;> simp [prepend_ok, String.append_assoc]

theorem getArg_codegen_eq (locs : Locs) (q : GetArgQuad) (out : String) :
    q.codegenX64 locs out = Outcome.prepend out (q.codegenX64 locs "") := by
  simp only [GetArgQuad.codegenX64, genStore_eq]
  split_ifs <;> simp [prepend_prepend, prepend_ok]

theorem quad_codegen_eq (locs : Locs) (q : Quad) (out : String) :
    q.codegenX64 locs out = Outcome.prepend out (q.codegenX64 locs "") := by
  obtain ⟨labels, kind⟩ := q
  cases kind with
  | binOp b => exact binOp_codegen_eq locs b out
  | unaryOp u => exact unaryOp_codegen_eq locs u out
  | assign a =>
    simp [Quad.codegenX64, AssignQuad.codegenX64, genLoad_eq, genStore_eq, prepend_prepend]
  | loc => simp [Quad.codegenX64, LocQuad.codegenX64, prepend_ok]
  | jmp j => simp [Quad.codegenX64, JmpQuad.codegenX64, prepend_ok, String.append_assoc]
  | jmpIf j =>
    simp [Quad.codegenX64, JmpIfQuad.codegenX64, genLoad_eq, prepend_ok,
      String.append_assoc]
  | nop => simp [Quad.codegenX64, NopQuad.codegenX64, prepend_ok]
  | intrinsic i => exact intrinsic_codegen_eq locs i out
  | call c => simp [Quad.codegenX64, CallQuad.codegenX64, prepend_ok, String.append_assoc]
  | setArg a => exact setArg_codegen_eq locs a out
  | getArg g => exact getArg_codegen_eq locs g out
  | setRet r =>
    simp [Quad.codegenX64, SetRetQuad.codegenX64, prepend_ok, String.append_assoc]
  | getRet g => simp [Quad.codegenX64, GetRetQuad.codegenX64, genStore_eq, prepend_prepend]

theorem codegenLabelsLoop_eq (n : Nat) (labels : List String) (i : Nat) (out : String) :
    codegenLabelsLoop n labels i out = out ++ codegenLabelsLoop n labels i "" := by
  induction labels generalizing i out with
  | nil => simp [codegenLabelsLoop]
  | cons l rest ih =>
    simp only [codegenLabelsLoop]
    rw [ih, ih (i + 1) (if i ≠ n - 1 then "" ++ l ++ ": " ++ "\n" else "" ++ l ++ ": ")]
    split_ifs <;> simp [String.append_assoc]

theorem codegenLabels_eq (labels : List String) (out : String) :
    codegenLabels labels out = out ++ labelsText labels := by
  unfold labelsText codegenLabels
  split_ifs
  · simp
  · exact codegenLabelsLoop_eq _ _ _ _

theorem codegenBody_ok (locs : Locs) (quads : List Quad) (out : String)
    (hok : ∀ q ∈ quads, (q.codegenX64 locs "").isOk = true) :
    codegenBody locs quads out = .ok (out ++ bodyText locs quads) := by
  induction quads generalizing out with
  | nil => simp [codegenBody, bodyText, concatAll]
  | cons q rest ih =>
    have hq := hok q (List.mem_cons_self _ _)
    have hrest : ∀ r ∈ rest, (r.codegenX64 locs "").isOk = true :=
      fun r hr => hok r (List.mem_cons_of_mem _ hr)
    have htext : q.codegenX64 locs "" = .ok (q.text locs) := by
      unfold Quad.text
      cases h : q.codegenX64 locs "" with
      | ok t => rfl
      | thrown t msg => rw [h] at hq; exact absurd hq (by simp [Outcome.isOk])
    simp only [codegenBody]
    rw [quad_codegen_eq, htext, prepend_ok]
    simp only [Outcome.andThen]
    rw [ih _ hrest, codegenLabels_eq]
    simp only [bodyText, List.map_cons, concatAll, String.append_assoc]

/-- If a body instruction throws, `Procedure::toX64` throws with the same message and
emits nothing after the text produced up to the throw: no further instruction and no
Leave lowering. -/
theorem toX64_stops_at_throw (p : Procedure) (locs : Locs) (out t msg : String)
    (h : codegenBody (p.allocLocals locs) p.bodyQuads
        (EnterQuad.codegenX64 p
          (if p.myName = "main" then out ++ "main:\n"
            else codegenLabels p.enterLabels out ++ "\n"))
      = .thrown t msg) :
    p.toX64 locs out = .thrown (p.allocLocals locs, t) msg := by
  simp only [Procedure.toX64, h, Outcome.andThen]

theorem codegenLabelsLoop_lines (n : Nat) (labels : List String) (i : Nat) (out : String)
    (h : i + labels.length = n) :
    codegenLabelsLoop n labels i out = out ++ labelLines labels := by
  induction labels generalizing i out with
  | nil => simp [codegenLabelsLoop, labelLines]
  | cons l rest ih =>
    cases rest with
    | nil =>
      have hi : ¬ i ≠ n - 1 := by
        simp only [List.length_cons, List.length_nil] at h
        omega
      simp only [codegenLabelsLoop, hi, if_false, labelLines, String.append_assoc]
    | cons l2 rest2 =>
      have hi : i ≠ n - 1 := by
        simp only [List.length_cons] at h
        omega
      have hrec := ih (i + 1) (out ++ l ++ ": " ++ "\n")
        (by simp only [List.length_cons] at h ⊢; omega)
      rw [codegenLabelsLoop]
      simp only [hi, ne_eq, not_false_eq_true, if_true]
      rw [hrec]
      simp only [labelLines, String.append_assoc]

theorem codegenLabels_lines (labels : List String) (out : String) :
    codegenLabels labels out = out ++ labelLines labels := by
  unfold codegenLabels
  cases labels with
  | nil => simp [labelLines]
  | cons l rest =>
    simp only [List.isEmpty_cons, Bool.false_eq_true, if_false]
    exact codegenLabelsLoop_lines _ _ 0 out (by simp)

/-- C12: for every procedure whose body instructions lower without an error,
`Procedure::toX64` returns and the text it emits is the concatenation, in this order, of
the entry label (`main:` for the procedure named main, otherwise the labels of the Enter
instruction and a newline), the Enter lowering, for each body instruction in list order
its labels immediately followed by its own code, and the labels and the lowering of the
Leave instruction.  The labels of an instruction are written as `labelLines` states: each
label with `: ` after it, a newline between two labels; the own code of an instruction is
the text its lowering appends to any stream. -/
theorem C12_procedure_text (p : Procedure) (locs : Locs) (out : String)
    (hok : ∀ q ∈ p.bodyQuads, (q.codegenX64 (p.allocLocals locs) "").isOk = true) :
    p.toX64 locs out
        = .ok (p.allocLocals locs,
            out ++ (if p.myName = "main" then "main:\n" else labelLines p.enterLabels ++ "\n")
              ++ ("pushq %rbp\n" ++ "movq %rsp, %rbp\n" ++ "addq $16, %rbp\n"
                  ++ "subq $" ++ toString (EnterQuad.size p) ++ ", %rsp\n")
              ++ concatAll (p.bodyQuads.map fun q =>
                  labelLines q.labels ++ (q.codegenX64 (p.allocLocals locs) "").state)
              ++ labelLines p.leaveLabels
              ++ ("addq $" ++ toString (LeaveQuad.size p) ++ ", %rsp\n"
                  ++ "popq %rbp\n" ++ "retq\n"))
      ∧ (∀ q ∈ p.bodyQuads, ∀ o : String,
          q.codegenX64 (p.allocLocals locs) o
            = .ok (o ++ (q.codegenX64 (p.allocLocals locs) "").state))
      ∧ (∀ (labels : List String) (o : String),
          codegenLabels labels o = o ++ labelLines labels) := by
  have hlines : ∀ labels : List String, labelsText labels = labelLines labels := by
    intro labels
    have h := codegenLabels_lines labels ""
    simpa [labelsText] using h
  have henter : ∀ o : String, EnterQuad.codegenX64 p o
      = o ++ ("pushq %rbp\n" ++ "movq %rsp, %rbp\n" ++ "addq $16, %rbp\n"
          ++ "subq $" ++ toString (EnterQuad.size p) ++ ", %rsp\n") := by
    intro o
    simp only [EnterQuad.codegenX64, String.append_assoc]
  have hleave : ∀ o : String, LeaveQuad.codegenX64 p o
      = o ++ ("addq $" ++ toString (LeaveQuad.size p) ++ ", %rsp\n"
          ++ "popq %rbp\n" ++ "retq\n") := by
    intro o
    simp only [LeaveQuad.codegenX64, String.append_assoc]
  have hentry : (if p.myName = "main" then out ++ "main:\n"
      else codegenLabels p.enterLabels out ++ "\n")
      = out ++ (if p.myName = "main" then "main:\n" else labelLines p.enterLabels ++ "\n") := by
    split_ifs
    · rfl
    · rw [codegenLabels_lines, String.append_assoc]
  have hbody : bodyText (p.allocLocals locs) p.bodyQuads
      = concatAll (p.bodyQuads.map fun q =>
          labelLines q.labels ++ (q.codegenX64 (p.allocLocals locs) "").state) := by
    unfold bodyText
    refine congrArg concatAll (List.map_congr_left ?_)
    intro q _
    rw [hlines]
    rfl
  refine ⟨?_, ?_, codegenLabels_lines⟩
  · simp only [Procedure.toX64, hentry]
    rw [henter, codegenBody_ok _ _ _ hok]
    simp only [Outcome.andThen]
    rw [hleave, codegenLabels_lines, hbody]
  · intro q hq o
    have h := hok q hq
    rw [quad_codegen_eq]
    cases hrun : q.codegenX64 (p.allocLocals locs) "" with
    | ok t => rfl
    | thrown t msg => rw [hrun] at h; exact absurd h (by simp [Outcome.isOk])

/-- Witness of C12 on `exampleBodyProc`. -/
theorem C12_procedure_text_witness :
    (∀ q ∈ exampleBodyProc.bodyQuads,
        (q.codegenX64 (exampleBodyProc.allocLocals exampleLocs) "").isOk = true)
      ∧ exampleBodyProc.toX64 exampleLocs ""
        = .ok (exampleBodyProc.allocLocals exampleLocs,
            "" ++ (if exampleBodyProc.myName = "main" then "main:\n"
                    else labelLines exampleBodyProc.enterLabels ++ "\n")
              ++ ("pushq %rbp\n" ++ "movq %rsp, %rbp\n" ++ "addq $16, %rbp\n"
                  ++ "subq $" ++ toString (EnterQuad.size exampleBodyProc) ++ ", %rsp\n")
              ++ concatAll (exampleBodyProc.bodyQuads.map fun q =>
                  labelLines q.labels
                    ++ (q.codegenX64 (exampleBodyProc.allocLocals exampleLocs) "").state)
              ++ labelLines exampleBodyProc.leaveLabels
              ++ ("addq $" ++ toString (LeaveQuad.size exampleBodyProc) ++ ", %rsp\n"
                  ++ "popq %rbp\n" ++ "retq\n"))
      ∧ (∀ q ∈ exampleBodyProc.bodyQuads, ∀ o : String,
          q.codegenX64 (exampleBodyProc.allocLocals exampleLocs) o
            = .ok (o ++ (q.codegenX64 (exampleBodyProc.allocLocals exampleLocs) "").state))
      ∧ (∀ (labels : List String) (o : String),
          codegenLabels labels o = o ++ labelLines labels) :=
  ⟨by decide, C12_procedure_text exampleBodyProc exampleLocs "" (by decide)⟩

set_option maxRecDepth 20000 in
/-- The text `exampleBodyProc` is lowered to. -/
theorem exampleBodyProc_text :
    (exampleBodyProc.toX64 exampleLocs "").isOk = true
      ∧ (exampleBodyProc.toX64 exampleLocs "").state.2
        = "lbl_fun_g: \npushq %rbp\nmovq %rsp, %rbp\naddq $16, %rbp\nsubq $16, %rsp\n"
          ++ "lbl_1: movq -32(%rbp), %rax\nmovq %rax, -24(%rbp)\nnop\n"
          ++ "lbl_2: addq $16, %rsp\npopq %rbp\nretq\n" := by
  decide

/-! ### Division -/

theorem tdiv_bounds (a b : Int) (ha : 0 ≤ a) : -a ≤ a.tdiv b ∧ a.tdiv b ≤ a := by
  rcases le_or_lt 0 b with hb | hb
  · rw [Int.tdiv_eq_ediv ha hb]
    exact ⟨by have := Int.ediv_nonneg ha hb; omega, Int.ediv_le_self b ha⟩
  · have h := Int.tdiv_neg a (-b)
    rw [neg_neg] at h
    rw [h, Int.tdiv_eq_ediv ha (by omega)]
    have h1 := Int.ediv_nonneg ha (show 0 ≤ -b by omega)
    have h2 := Int.ediv_le_self (-b) ha
    omega

/-- With a dividend that is not negative the DIV lowering stores the signed quotient. -/
theorem idivq_nonneg_dividend (a b : Int) (ha : 0 ≤ a) (ha2 : a < 2 ^ 63) (hb : b ≠ 0) :
    idivq 0 a b = some (a.tdiv b) := by
  have hmod : a % 2 ^ 64 = a := Int.emod_eq_of_lt ha (by omega)
  have hb2 := tdiv_bounds a b ha
  simp only [idivq, hb, if_false, zero_mul, zero_add, hmod]
  rw [if_pos ⟨by omega, by omega⟩]

theorem tdiv_zero_extended (a b : Int) (ha1 : -2 ^ 63 ≤ a) (ha : a < 0) (hb : b ≠ 0)
    (hb1 : -2 ^ 63 ≤ b) (hb2 : b < 2 ^ 63) :
    (a % 2 ^ 64).tdiv b ≠ a.tdiv b := by
  have hmod : a % 2 ^ 64 = a + 2 ^ 64 := by omega
  rw [hmod]
  have hD : (0 : Int) ≤ a + 2 ^ 64 := by omega
  have hna : (0 : Int) ≤ -a := by omega
  have ha' : a.tdiv b = -((-a).tdiv b) := by rw [Int.neg_tdiv, neg_neg]
  rcases lt_or_gt_of_ne hb with hneg | hpos
  · have h1 : (a + 2 ^ 64).tdiv b = -((a + 2 ^ 64) / (-b)) := by
      have h := Int.tdiv_neg (a + 2 ^ 64) (-b)
      rw [neg_neg] at h
      rw [h, Int.tdiv_eq_ediv hD (by omega)]
    have h2 : (-a).tdiv b = -((-a) / (-b)) := by
      have h := Int.tdiv_neg (-a) (-b)
      rw [neg_neg] at h
      rw [h, Int.tdiv_eq_ediv hna (by omega)]
    have h3 : 1 ≤ (a + 2 ^ 64) / (-b) := by
      rw [Int.le_ediv_iff_mul_le (by omega)]
      omega
    have h4 := Int.ediv_nonneg hna (show 0 ≤ -b by omega)
    rw [ha', h1, h2]
    omega
  · have h1 : (a + 2 ^ 64).tdiv b = (a + 2 ^ 64) / b := Int.tdiv_eq_ediv hD (by omega)
    have h2 : (-a).tdiv b = (-a) / b := Int.tdiv_eq_ediv hna (by omega)
    have h3 : 1 ≤ (a + 2 ^ 64) / b := by
      rw [Int.le_ediv_iff_mul_le (by omega)]
      omega
    have h4 := Int.ediv_nonneg hna (show 0 ≤ b by omega)
    rw [ha', h1, h2]
    omega

/-- With a negative dividend the DIV lowering never stores the signed quotient: after
`movq $0, %rdx` the 128-bit dividend is `a + 2^64`, and `idivq` either raises the divide
error or leaves a quotient different from that of `a` by `b`. -/
theorem idivq_negative_dividend (a b : Int) (ha1 : -2 ^ 63 ≤ a) (ha : a < 0) (hb : b ≠ 0)
    (hb1 : -2 ^ 63 ≤ b) (hb2 : b < 2 ^ 63) :
    idivq 0 a b ≠ some (a.tdiv b) := by
  have h := tdiv_zero_extended a b ha1 ha hb hb1 hb2
  simp only [idivq, hb, if_false, zero_mul, zero_add]
  split
  · intro he
    exact h (Option.some.inj he)
  · simp

/-- C17 fails on the code at `a / b` with `a = -6` and `b = 3`: the lowering emits the
loads, `movq $0, %rdx`, `idivq %rbx` and the store of `%rax`; with `%rdx` cleared the
128-bit dividend is `2^64 - 6`, so `idivq` leaves 6148914691236517203 in `%rax`, not the
signed quotient -2. -/
theorem C17_div_negative_dividend_wrong :
    BinOpQuad.codegenX64 exampleLocs ⟨.sym exampleA, .DIV, .sym exampleA, .sym exampleB⟩ ""
        = .ok ("movq -24(%rbp), %rax\nmovq -32(%rbp), %rbx\n"
            ++ "movq $0, %rdx\nidivq %rbx\nmovq %rax, -24(%rbp)\n")
      ∧ idivq 0 (-6) 3 = some 6148914691236517203
      ∧ Int.tdiv (-6) 3 = -2 := by
  decide

/-! ### Frame slots inside the reserved region -/

theorem enterInsns_text (p : Procedure) (out : String) :
    EnterQuad.codegenX64 p out = out ++ concatAll ((enterInsns p).map StackInsn.text) := by
  have h16 : (StackInsn.addqRbp 16).text = "addq $16, %rbp\n" := by decide
  simp only [enterInsns, List.map_cons, List.map_nil, concatAll, h16]
  simp only [EnterQuad.codegenX64, StackInsn.text, String.append_assoc, String.append_empty]

/-- C18: for every procedure whose frame operands are distinct objects, with `n` the
number of its frame operands and `R` the value of `%rsp` right after `pushq %rbp`: after
the Enter lowering `%rbp = R + 16` and `%rsp = R - S` with `S = 8n + (8n mod 16)`; the
`k`-th operand (`k < n`) is given the location `"<-24 - 8k>(%rbp)"`, so its 8-byte slot is
`[R - 8 - 8k, R - 8k)`, which lies inside the reserved region `[R - S, R)` and below the
saved frame pointer and the return address at `R` and above. -/
theorem C18_slots_inside_frame (p : Procedure) (locs : Locs) (start : StackRegs) (k : Nat)
    (hk : k < p.frameOpds.length) (hd : p.frameOpds.Nodup) :
    p.allocLocals locs (p.frameOpds.get ⟨k, hk⟩) = toString (frameOffset k) ++ "(%rbp)"
      ∧ p.frameOpds.length = p.locals.length + p.temps.length + p.formals.length
      ∧ (StackInsn.pushqRbp.exec start).rsp = start.rsp - 8
      ∧ (execAll (enterInsns p) start).rbp = (start.rsp - 8) + 16
      ∧ EnterQuad.size p
          = 8 * (p.frameOpds.length : Int) + (8 * (p.frameOpds.length : Int)) % 16
      ∧ (execAll (enterInsns p) start).rsp = (start.rsp - 8) - EnterQuad.size p
      ∧ (execAll (enterInsns p) start).rbp + frameOffset k = (start.rsp - 8) - 8 - 8 * (k : Int)
      ∧ (execAll (enterInsns p) start).rsp ≤ (execAll (enterInsns p) start).rbp + frameOffset k
      ∧ (execAll (enterInsns p) start).rbp + frameOffset k + 8 ≤ start.rsp - 8 := by
  have hn : p.frameOpds.length = p.locals.length + p.temps.length + p.formals.length := by
    simp [Procedure.frameOpds, Nat.add_assoc]
  have hsize : EnterQuad.size p
      = 8 * (p.frameOpds.length : Int) + (8 * (p.frameOpds.length : Int)) % 16 := by
    have h0 : (0 : Int) ≤ ((p.localsSize : Nat) : Int) := Int.ofNat_nonneg _
    simp only [EnterQuad.size]
    rw [Int.tmod_eq_emod h0 (by decide)]
    simp only [Procedure.localsSize, hn]
    push_cast
    ring
  have hrbp : (execAll (enterInsns p) start).rbp = (start.rsp - 8) + 16 := by
    simp [execAll, enterInsns, StackInsn.exec]
  have hrsp : (execAll (enterInsns p) start).rsp = (start.rsp - 8) - EnterQuad.size p := by
    simp [execAll, enterInsns, StackInsn.exec]
  refine ⟨?_, hn, rfl, hrbp, hsize, hrsp, ?_, ?_, ?_⟩
  · rw [allocLocals_eq, allocFrameSlots_get _ _ _ hd k hk]
    rfl
  · rw [hrbp]
    simp only [frameOffset]
    omega
  · rw [hrbp, hrsp, hsize]
    simp only [frameOffset]
    omega
  · rw [hrbp]
    simp only [frameOffset]
    omega

/-- Witness of C18: the third operand of `exampleProc`. -/
theorem C18_slots_inside_frame_witness :
    exampleProc.frameOpds.Nodup
      ∧ ∃ hk : 2 < exampleProc.frameOpds.length,
        exampleProc.allocLocals exampleLocs (exampleProc.frameOpds.get ⟨2, hk⟩)
            = toString (frameOffset 2) ++ "(%rbp)"
          ∧ exampleProc.frameOpds.length
            = exampleProc.locals.length + exampleProc.temps.length + exampleProc.formals.length
          ∧ (StackInsn.pushqRbp.exec ⟨1000, 2000⟩).rsp = 1000 - 8
          ∧ (execAll (enterInsns exampleProc) ⟨1000, 2000⟩).rbp = (1000 - 8) + 16
          ∧ EnterQuad.size exampleProc
              = 8 * (exampleProc.frameOpds.length : Int)
                + (8 * (exampleProc.frameOpds.length : Int)) % 16
          ∧ (execAll (enterInsns exampleProc) ⟨1000, 2000⟩).rsp
              = (1000 - 8) - EnterQuad.size exampleProc
          ∧ (execAll (enterInsns exampleProc) ⟨1000, 2000⟩).rbp + frameOffset 2
              = (1000 - 8) - 8 - 8 * ((2 : Nat) : Int)
          ∧ (execAll (enterInsns exampleProc) ⟨1000, 2000⟩).rsp
              ≤ (execAll (enterInsns exampleProc) ⟨1000, 2000⟩).rbp + frameOffset 2
          ∧ (execAll (enterInsns exampleProc) ⟨1000, 2000⟩).rbp + frameOffset 2 + 8
              ≤ 1000 - 8 :=
  ⟨by decide, by decide,
    C18_slots_inside_frame exampleProc exampleLocs ⟨1000, 2000⟩ 2 (by decide) (by decide)⟩

/-! ### Relational operators on a machine -/

theorem genLoad_source (locs : Locs) (o : Opd) (out r : String) :
    o.genLoad locs out r = out ++ "movq " ++ o.loadSource locs ++ ", " ++ r ++ "\n" := by
  cases o with
  | sym x => rfl
  | aux x => rfl
  | lit l =>
    by_cases hw : l.width = .BYTE
    · simp only [Opd.genLoad, Opd.loadSource, hw, if_true]
      rw [byte_literal_load l hw]
      simp only [String.append_assoc]
      rfl
    · simp only [Opd.genLoad, Opd.loadSource, LitOpd.genLoad, hw, if_false]

theorem wrap64_low_byte (x : Int) : wrap64 x % 256 = x % 256 := by
  unfold wrap64
  norm_num
  omega

/-- The relational lowering, run on a machine: for every BinaryOp with a relational
operator the emitted text is that of `relationalInsns`, and running these instructions
leaves, in the low byte of the destination cell, 1 when `a <op> b` holds and 0 otherwise,
where `a` and `b` are the 64-bit values the two `movq` loads read for the sources; no
other cell changes. -/
theorem relational_lowering_runs (q : BinOpQuad) (cc : CondCode)
    (hcc : compareCode q.op = some cc) (locs : Locs) (out : String) (m : CmpMachine)
    (ha : -2 ^ 63 ≤ readSource m (q.src1.loadSource locs)
      ∧ readSource m (q.src1.loadSource locs) < 2 ^ 63)
    (hb : -2 ^ 63 ≤ readSource m (q.src2.loadSource locs)
      ∧ readSource m (q.src2.loadSource locs) < 2 ^ 63) :
    q.codegenX64 locs out
        = .ok (out ++ concatAll ((relationalInsns locs q cc).map CmpInsn.text))
      ∧ ((runCmp (relationalInsns locs q cc) m).mem (q.dst.getMemoryLoc locs) % 256 = 0
          ∨ (runCmp (relationalInsns locs q cc) m).mem (q.dst.getMemoryLoc locs) % 256 = 1)
      ∧ ((runCmp (relationalInsns locs q cc) m).mem (q.dst.getMemoryLoc locs) % 256 = 1
          ↔ q.op.compare (readSource m (q.src1.loadSource locs))
              (readSource m (q.src2.loadSource locs)) = true)
      ∧ (∀ t, t ≠ q.dst.getMemoryLoc locs →
          (runCmp (relationalInsns locs q cc) m).mem t = m.mem t) := by
  obtain ⟨he, hne, hl, hg, hle, hge⟩ := condCode_holds_iff _ _ ha hb
  have hrun : (runCmp (relationalInsns locs q cc) m).mem (q.dst.getMemoryLoc locs) % 256
      = ((setcc cc (cmpq (readSource m (q.src2.loadSource locs))
          (readSource m (q.src1.loadSource locs))) : Nat) : Int) := by
    simp only [runCmp, relationalInsns, List.foldl_cons, List.foldl_nil, CmpInsn.exec,
      readSource, if_true]
    rw [wrap64_low_byte, wrap64_low_byte]
    have h01 : setcc cc (cmpq (readSource m (q.src2.loadSource locs))
        (readSource m (q.src1.loadSource locs))) = 0
        ∨ setcc cc (cmpq (readSource m (q.src2.loadSource locs))
          (readSource m (q.src1.loadSource locs))) = 1 := by
      unfold setcc
      split
      · exact Or.inr rfl
      · exact Or.inl rfl
    simp only [readSource] at h01 ⊢
    rcases h01 with h | h <;> rw [h] <;> norm_num <;> omega
  have hset : ∀ c : CondCode, ∀ f : Flags, (((setcc c f : Nat) : Int) = 1 ↔ c.holds f = true) := by
    intro c f
    unfold setcc
    split <;> simp_all
  have h01 : ∀ c : CondCode, ∀ f : Flags,
      ((setcc c f : Nat) : Int) = 0 ∨ ((setcc c f : Nat) : Int) = 1 := by
    intro c f
    unfold setcc
    split
    · exact Or.inr rfl
    · exact Or.inl rfl
  have hother : ∀ t, t ≠ q.dst.getMemoryLoc locs →
      (runCmp (relationalInsns locs q cc) m).mem t = m.mem t := by
    intro t ht
    simp [runCmp, relationalInsns, CmpInsn.exec, ht]
  rw [hrun]
  refine ⟨?_, h01 _ _, ?_, hother⟩
  · obtain ⟨dst, op, src1, src2⟩ := q
    cases op <;> simp only [compareCode, Option.some.injEq] at hcc <;>
      first
      | exact absurd hcc (by simp)
      | (subst hcc
         simp only [BinOpQuad.codegenX64, genLoad_source, relationalInsns, List.map_cons,
           List.map_nil, concatAll, CmpInsn.text, CondCode.text, String.append_assoc,
           String.append_empty]
         rfl)
  · rw [hset]
    obtain ⟨dst, op, src1, src2⟩ := q
    cases op <;> simp only [compareCode, Option.some.injEq] at hcc <;>
      first
      | exact absurd hcc (by simp)
      | (subst hcc
         simp only [BinOp.compare, decide_eq_true_eq]
         assumption)

/-- C10 fails on the code at `t := g == true` for a byte variable `g` that holds true (its
cell holds 1) and the byte literal of the true encoding `1`: the lowering emits
`movq -24(%rbp), %rax`, `movq $49, %rbx`, `cmpq %rbx, %rax`, `sete %al`,
`movb %al, -32(%rbp)`, so 1 is compared with 49 and the byte written to `t` is 0, although
the comparison `g == true` holds. -/
theorem C10_eq_true_literal_writes_0 :
    BinOpQuad.codegenX64 exampleLocs ⟨.sym flagT, .EQ, .sym flagG, .lit exampleTrue⟩ ""
        = .ok ("movq -24(%rbp), %rax\nmovq $49, %rbx\n"
            ++ "cmpq %rbx, %rax\nsete %al\nmovb %al, -32(%rbp)\n")
      ∧ concatAll ((relationalInsns exampleLocs
            ⟨.sym flagT, .EQ, .sym flagG, .lit exampleTrue⟩ .e).map CmpInsn.text)
        = "movq -24(%rbp), %rax\nmovq $49, %rbx\n"
            ++ "cmpq %rbx, %rax\nsete %al\nmovb %al, -32(%rbp)\n"
      ∧ (runCmp (relationalInsns exampleLocs
            ⟨.sym flagT, .EQ, .sym flagG, .lit exampleTrue⟩ .e) flagMachine).mem "-32(%rbp)"
        = 0
      ∧ flagMachine.mem "-24(%rbp)" = 1
      ∧ statedByteValue exampleTrue.val = 1
      ∧ BinOp.EQ.compare (flagMachine.mem "-24(%rbp)") (statedByteValue exampleTrue.val)
        = true := by
  decide

/-- Two byte variables whose cells agree in the byte that `movb` writes and differ in
another byte compare as different: every load is an 8-byte `movq`. -/
theorem byte_cells_compared_whole :
    staleMachine.mem "-24(%rbp)" % 256 = staleMachine.mem "-32(%rbp)" % 256
      ∧ (runCmp (relationalInsns exampleLocs
            ⟨.sym flagG, .EQ, .sym flagG, .sym flagT⟩ .e) staleMachine).mem "-24(%rbp)" % 256
        = 0 := by
  decide

end holeyc
